import Mathlib

/-!
# Sudoku solver: validator and backtracking search

A shallow embedding of `sudokuSolver.c` (functions `copyGrid`, `solve`,
`validGrid`) together with the properties of its specification.

* A grid (`int **`) is a list of rows, each a list of `Int` cells.  Every array
  read or write of the C code is modelled with an explicit bounds check; an
  access outside the array makes the embedded function yield no result.
* `validGrid` returns `Option Int`: `none` stands for an out-of-bounds access,
  `some v` for the returned status.
* `solve` returns `Option (Option Grid)`: the outer `none` stands for "no
  result" (an out-of-bounds access, or the recursion budget used up), the value
  `some none` for the C result `NULL` and `some (some S)` for a returned grid.
* The static counter `iter` and the `printf` call only produce the progress
  log and are left out of the functional model; `freeGrid` only releases
  memory.
* A second model, `solveM`, runs the same code on an explicit program state:
  a heap of grids addressed by pointers, the counter `iter` (a 32-bit `int`
  that wraps around) and the log.  `solveMFuel_sim` relates it to the
  functional model.
-/

namespace Sudoku

/-! ## Constants (`#define`s of the source) -/

def WIDTH : Nat := 9
def INVALID : Int := 0
def SOLVABLE : Int := 1
def SOLVED : Int := 2

/-! ## Data model -/

/-- A grid as the C program holds it: an array of rows of `int` cells. -/
abbrev Grid := List (List Int)

/-- The read `grid[i][j]`, with `none` for an index outside the arrays. -/
def readCell (grid : Grid) (i j : Nat) : Option Int :=
  match grid[i]? with
  | none => none
  | some row => row[j]?

/-- The write `grid[i][j] = v`, with `none` for an index outside the arrays. -/
def writeCell (grid : Grid) (i j : Nat) (v : Int) : Option Grid :=
  match grid[i]? with
  | none => none
  | some row => if j < row.length then some (grid.set i (row.set j v)) else none

/-- Result of running a piece of a loop body: an out-of-bounds access, an early
`return v`, or falling through to the next statement with a state. -/
inductive Flow (σ : Type) where
  | fault : Flow σ
  | ret : Int → Flow σ
  | next : σ → Flow σ

/-- Sequencing of loop-body pieces. -/
def Flow.bind {σ τ : Type} (x : Flow σ) (f : σ → Flow τ) : Flow τ :=
  match x with
  | .fault => .fault
  | .ret v => .ret v
  | .next s => f s

/-! ## `validGrid` -/

/-- The read `checked[k]` of a seen-array at a C `int` index. -/
def readSeen (checked : List Int) (k : Int) : Option Int :=
  if 0 ≤ k then checked[k.toNat]? else none

/-- One of the three check blocks of `validGrid`, for a cell read `cellv`:
`if (v) { if (!checked[v - 1]) checked[v - 1] = 1; else return INVALID; }`. -/
def check (checked : List Int) (cellv : Option Int) : Flow (List Int) :=
  match cellv with
  | none => .fault
  | some v =>
    if v ≠ 0 then
      match readSeen checked (v - 1) with
      | none => .fault
      | some s => if s = 0 then .next (checked.set (v - 1).toNat 1) else .ret INVALID
    else .next checked

/-- The local variables of `validGrid` that live across the inner loop. -/
structure Seen where
  status : Int
  checkedRow : List Int
  checkedCol : List Int
  checkedBlock : List Int

/-- Body of the inner `for (j ...)` loop of `validGrid`. -/
def body (grid : Grid) (i j : Nat) (st : Seen) : Flow Seen :=
  match readCell grid i j with
  | none => .fault
  | some v =>
    let status := if v = 0 then SOLVABLE else st.status
    (check st.checkedRow (readCell grid i j)).bind fun row =>
    (check st.checkedCol (readCell grid j i)).bind fun col =>
    (check st.checkedBlock
        (readCell grid (i / 3 * 3 + j / 3) (i % 3 * 3 + j % 3))).bind fun block =>
    .next ⟨status, row, col, block⟩

/-- The inner loop of `validGrid`, over the remaining values of `j`. -/
def innerLoop (grid : Grid) (i : Nat) : List Nat → Seen → Flow Seen
  | [], st => .next st
  | j :: js, st => (body grid i j st).bind (innerLoop grid i js)

/-- The array initialiser `{0}` of the three seen-arrays. -/
def zeros : List Int := List.replicate WIDTH 0

/-- The outer loop of `validGrid`, over the remaining values of `i`; the three
seen-arrays are fresh in every iteration, `status` is carried along. -/
def outerLoop (grid : Grid) : List Nat → Int → Flow Int
  | [], status => .next status
  | i :: is, status =>
    (innerLoop grid i (List.range WIDTH) ⟨status, zeros, zeros, zeros⟩).bind
      fun st => outerLoop grid is st.status

/-- The classification `validGrid(grid)`. -/
def validGrid (grid : Grid) : Option Int :=
  match outerLoop grid (List.range WIDTH) SOLVED with
  | .fault => none
  | .ret v => some v
  | .next status => some status

/-! ## `copyGrid` -/

/-- The inner loop of `copyGrid`: cells `grid[i][j]` for the remaining `j`. -/
def copyRow (grid : Grid) (i : Nat) : List Nat → Option (List Int)
  | [] => some []
  | j :: js =>
    match readCell grid i j with
    | none => none
    | some v =>
      match copyRow grid i js with
      | none => none
      | some rest => some (v :: rest)

/-- The outer loop of `copyGrid`. -/
def copyRows (grid : Grid) : List Nat → Option Grid
  | [] => some []
  | i :: is =>
    match copyRow grid i (List.range WIDTH) with
    | none => none
    | some row =>
      match copyRows grid is with
      | none => none
      | some rest => some (row :: rest)

/-- The deep copy `copyGrid(grid)`. -/
def copyGrid (grid : Grid) : Option Grid :=
  copyRows grid (List.range WIDTH)

/-! ## `solve` -/

/-- The inner loop of the scan for an empty cell in `solve`: the outer `none` is
an out-of-bounds read, `some none` is "row exhausted", `some (some (r, c))` is
the `goto found` with `r` and `c` set. -/
def scanRow (grid : Grid) (i : Nat) : List Nat → Option (Option (Nat × Nat))
  | [] => some none
  | j :: js =>
    match readCell grid i j with
    | none => none
    | some v => if v = 0 then some (some (i, j)) else scanRow grid i js

/-- The outer loop of the scan for an empty cell in `solve`. -/
def scanRows (grid : Grid) : List Nat → Option (Option (Nat × Nat))
  | [] => some none
  | i :: is =>
    match scanRow grid i (List.range WIDTH) with
    | none => none
    | some (some p) => some (some p)
    | some none => scanRows grid is

/-- The scan of `solve` for the first empty cell, rows top to bottom and columns
left to right. -/
def findEmpty (grid : Grid) : Option (Option (Nat × Nat)) :=
  scanRows grid (List.range WIDTH)

/-- The candidate values `i = 1 .. WIDTH` of the loop after `found:`. -/
def candidates : List Int := (List.range WIDTH).map fun (k : Nat) => (k : Int) + 1

/-- The loop after `found:` in `solve`, over the remaining candidates.  `self`
is the recursive call; `nextIter` is the working copy, whose cell `(r, c)` is
overwritten by every candidate. -/
def tryDigits (self : Grid → Option (Option Grid)) (r c : Nat) :
    List Int → Grid → Option (Option Grid)
  | [], _ => some none
  | d :: ds, nextIter =>
    match writeCell nextIter r c d with
    | none => none
    | some nextIter =>
      match validGrid nextIter with
      | none => none
      | some status =>
        if status = SOLVED then some (some nextIter)
        else if status = SOLVABLE then
          match self nextIter with
          | none => none
          | some (some leaf) => some (some leaf)
          | some none => tryDigits self r c ds nextIter
        else tryDigits self r c ds nextIter

/-- The function `solve` with a budget on the depth of the recursion. -/
def solveFuel : Nat → Grid → Option (Option Grid)
  | 0, _ => none
  | fuel + 1, grid =>
    match copyGrid grid with
    | none => none
    | some nextIter =>
      match findEmpty grid with
      | none => none
      | some none => some (some nextIter)
      | some (some (r, c)) => tryDigits (solveFuel fuel) r c candidates nextIter

/-- The function `solve(grid)`.  Every level of the recursion fills one of the
`WIDTH * WIDTH` cells, so a budget of `WIDTH * WIDTH + 1` levels is never used
up. -/
def solve (grid : Grid) : Option (Option Grid) :=
  solveFuel (WIDTH * WIDTH + 1) grid

/-! ## Specification-level notions -/

/-- The value of cell `(i, j)` of a grid (`0` outside the grid). -/
def cellAt (G : Grid) (i j : Nat) : Int := (G.getD i []).getD j 0

/-- A well-formed grid: 9 rows of 9 cells, every cell in `0 .. 9`, where `0`
means empty. -/
def WellFormed (G : Grid) : Prop :=
  G.length = 9 ∧ ∀ row ∈ G, row.length = 9 ∧ ∀ v ∈ row, 0 ≤ v ∧ v ≤ 9

instance (G : Grid) : Decidable (WellFormed G) := by
  unfold WellFormed; infer_instance

/-- Some row holds the same non-zero digit in two different cells. -/
def RowDup (G : Grid) : Prop :=
  ∃ i < 9, ∃ j < 9, ∃ k < 9, j ≠ k ∧ cellAt G i j ≠ 0 ∧ cellAt G i j = cellAt G i k

/-- Some column holds the same non-zero digit in two different cells. -/
def ColDup (G : Grid) : Prop :=
  ∃ i < 9, ∃ j < 9, ∃ k < 9, j ≠ k ∧ cellAt G j i ≠ 0 ∧ cellAt G j i = cellAt G k i

/-- Some 3x3 block holds the same non-zero digit in two different cells. -/
def BlockDup (G : Grid) : Prop :=
  ∃ r < 9, ∃ c < 9, ∃ r2 < 9, ∃ c2 < 9, (r ≠ r2 ∨ c ≠ c2) ∧ r / 3 = r2 / 3 ∧ c / 3 = c2 / 3 ∧
    cellAt G r c ≠ 0 ∧ cellAt G r c = cellAt G r2 c2

/-- Some row, column or block holds a repeated non-zero digit. -/
def HasDup (G : Grid) : Prop := RowDup G ∨ ColDup G ∨ BlockDup G

/-- Some cell of the grid is empty. -/
def HasEmpty (G : Grid) : Prop := ∃ i < 9, ∃ j < 9, cellAt G i j = 0

instance (G : Grid) : Decidable (RowDup G) := by unfold RowDup; infer_instance
instance (G : Grid) : Decidable (ColDup G) := by unfold ColDup; infer_instance
instance (G : Grid) : Decidable (BlockDup G) := by unfold BlockDup; infer_instance
instance (G : Grid) : Decidable (HasDup G) := by unfold HasDup; infer_instance
instance (G : Grid) : Decidable (HasEmpty G) := by unfold HasEmpty; infer_instance

/-- The grid `T` keeps every filled cell of `G`. -/
def Agrees (G T : Grid) : Prop :=
  ∀ i < 9, ∀ j < 9, cellAt G i j ≠ 0 → cellAt T i j = cellAt G i j

instance (G T : Grid) : Decidable (Agrees G T) := by unfold Agrees; infer_instance

/-- The grid `T` is a Solved completion of `G`: well-formed, without an empty
cell, classified `SOLVED`, and equal to `G` on every filled cell of `G`. -/
def Completion (G T : Grid) : Prop :=
  WellFormed T ∧ ¬HasEmpty T ∧ validGrid T = some SOLVED ∧ Agrees G T

instance (G T : Grid) : Decidable (Completion G T) := by unfold Completion; infer_instance

/-! ## Auxiliary notions for the analysis of `validGrid` -/

/-- The seen-array `a` marks exactly the digits that satisfy `P`. -/
def Marks (a : List Int) (P : Int → Prop) : Prop :=
  a.length = 9 ∧ ∀ k : Nat, k < 9 → (a.getD k 0 ≠ 0 ↔ P ((k : Int) + 1))

/-- A list of cell values runs into a digit that is already marked, or that
occurred earlier in the list. -/
def Clash (P : Int → Prop) : List Int → Prop
  | [] => False
  | v :: vs => (v ≠ 0 ∧ P v) ∨ Clash (fun d => P d ∨ (v ≠ 0 ∧ d = v)) vs

/-- The cell the block check of `validGrid` examines at loop position `(i, j)`. -/
def blockCell (G : Grid) (i j : Nat) : Int :=
  cellAt G (i / 3 * 3 + j / 3) (i % 3 * 3 + j % 3)

/-- Loop index `i` of `validGrid` finds a repeated digit: in row `i`, in
column `i`, or in the block it examines for `i`. -/
def DupAt (G : Grid) (i : Nat) : Prop :=
  (∃ j < 9, ∃ k < 9, j ≠ k ∧ cellAt G i j ≠ 0 ∧ cellAt G i j = cellAt G i k) ∨
  (∃ j < 9, ∃ k < 9, j ≠ k ∧ cellAt G j i ≠ 0 ∧ cellAt G j i = cellAt G k i) ∨
  (∃ j < 9, ∃ k < 9, j ≠ k ∧ blockCell G i j ≠ 0 ∧ blockCell G i j = blockCell G i k)

/-- Row `i` holds the same non-zero digit in two different cells. -/
def RowDupAt (G : Grid) (i : Nat) : Prop :=
  ∃ j < 9, ∃ k < 9, j ≠ k ∧ cellAt G i j ≠ 0 ∧ cellAt G i j = cellAt G i k

/-- Column `i` holds the same non-zero digit in two different cells. -/
def ColDupAt (G : Grid) (i : Nat) : Prop :=
  ∃ j < 9, ∃ k < 9, j ≠ k ∧ cellAt G j i ≠ 0 ∧ cellAt G j i = cellAt G k i

/-- The block with block row `i / 3` and block column `i % 3`, the `i`-th block
in row-major block order, holds the same non-zero digit in two different
cells. -/
def BlockDupAt (G : Grid) (i : Nat) : Prop :=
  ∃ r < 9, ∃ c < 9, ∃ r2 < 9, ∃ c2 < 9, (r ≠ r2 ∨ c ≠ c2) ∧
    r / 3 = i / 3 ∧ c / 3 = i % 3 ∧ r2 / 3 = i / 3 ∧ c2 / 3 = i % 3 ∧
    cellAt G r c ≠ 0 ∧ cellAt G r c = cellAt G r2 c2

instance (G : Grid) (i : Nat) : Decidable (RowDupAt G i) := by unfold RowDupAt; infer_instance

instance (G : Grid) (i : Nat) : Decidable (ColDupAt G i) := by unfold ColDupAt; infer_instance

instance (G : Grid) (i : Nat) : Decidable (BlockDupAt G i) := by
  unfold BlockDupAt; infer_instance

/-! ## Auxiliary notions for the analysis of `solve` -/

/-- The positions of the empty cells of a grid. -/
def emptyCells (G : Grid) : Finset (Nat × Nat) :=
  (Finset.range 9 ×ˢ Finset.range 9).filter fun p => cellAt G p.1 p.2 = 0

/-- The number of empty cells of a grid. -/
def emptyCount (G : Grid) : Nat := (emptyCells G).card

/-- What `solve` owes on a well-formed grid `G`: on a grid without an empty cell
the grid itself; otherwise a Solved completion of `G`, and `NULL` only when `G`
has no Solved completion. -/
def SolveSpec (G : Grid) : Option Grid → Prop
  | some S => (HasEmpty G ∧ Completion G S) ∨ (¬HasEmpty G ∧ S = G)
  | none => HasEmpty G ∧ ∀ T, ¬Completion G T

/-- The nine values `f 0 .. f 8` contain each digit of `1 .. 9` exactly once. -/
def EachOnce (f : Nat → Int) : Prop :=
  ∀ d : Int, 1 ≤ d → d ≤ 9 → ∃! j : Nat, j < 9 ∧ f j = d

/-- Every row, every column and every 3x3 block of the grid contains each digit
of `1 .. 9` exactly once; the cells of block `i` (block row `i / 3`, block
column `i % 3`) are `blockCell U i 0 .. blockCell U i 8`. -/
def AllComplete (U : Grid) : Prop :=
  ∀ i < 9, EachOnce (fun j => cellAt U i j) ∧ EachOnce (fun j => cellAt U j i) ∧
    EachOnce (fun j => blockCell U i j)

/-! ## Concrete grids -/

/-- A Solved grid. -/
def solvedGrid : Grid := [
  [5, 3, 4, 6, 7, 8, 9, 1, 2],
  [6, 7, 2, 1, 9, 5, 3, 4, 8],
  [1, 9, 8, 3, 4, 2, 5, 6, 7],
  [8, 5, 9, 7, 6, 1, 4, 2, 3],
  [4, 2, 6, 8, 5, 3, 7, 9, 1],
  [7, 1, 3, 9, 2, 4, 8, 5, 6],
  [9, 6, 1, 5, 3, 7, 2, 8, 4],
  [2, 8, 7, 4, 1, 9, 6, 3, 5],
  [3, 4, 5, 2, 8, 6, 1, 7, 9]]

/-- The grid `solvedGrid` with its last cell emptied. -/
def oneHole : Grid := [
  [5, 3, 4, 6, 7, 8, 9, 1, 2],
  [6, 7, 2, 1, 9, 5, 3, 4, 8],
  [1, 9, 8, 3, 4, 2, 5, 6, 7],
  [8, 5, 9, 7, 6, 1, 4, 2, 3],
  [4, 2, 6, 8, 5, 3, 7, 9, 1],
  [7, 1, 3, 9, 2, 4, 8, 5, 6],
  [9, 6, 1, 5, 3, 7, 2, 8, 4],
  [2, 8, 7, 4, 1, 9, 6, 3, 5],
  [3, 4, 5, 2, 8, 6, 1, 7, 0]]

/-- The grid `solvedGrid` with two cells emptied. -/
def twoHoles : Grid := [
  [5, 3, 4, 6, 7, 8, 9, 1, 2],
  [6, 7, 2, 1, 9, 5, 3, 4, 8],
  [1, 9, 8, 3, 4, 2, 5, 6, 7],
  [8, 5, 9, 7, 0, 1, 4, 2, 3],
  [4, 2, 6, 8, 5, 3, 7, 9, 1],
  [7, 1, 3, 9, 2, 4, 8, 5, 6],
  [9, 6, 1, 5, 3, 7, 2, 8, 4],
  [2, 8, 7, 4, 1, 9, 6, 3, 5],
  [3, 4, 5, 2, 8, 6, 1, 7, 0]]

/-- A grid without an empty cell whose last row holds the digit 7 twice. -/
def fullClash : Grid := [
  [5, 3, 4, 6, 7, 8, 9, 1, 2],
  [6, 7, 2, 1, 9, 5, 3, 4, 8],
  [1, 9, 8, 3, 4, 2, 5, 6, 7],
  [8, 5, 9, 7, 6, 1, 4, 2, 3],
  [4, 2, 6, 8, 5, 3, 7, 9, 1],
  [7, 1, 3, 9, 2, 4, 8, 5, 6],
  [9, 6, 1, 5, 3, 7, 2, 8, 4],
  [2, 8, 7, 4, 1, 9, 6, 3, 5],
  [3, 4, 5, 2, 8, 6, 1, 7, 7]]

/-- The grid of 81 cells that all hold the digit 1. -/
def allOnes : Grid := List.replicate 9 (List.replicate 9 1)

/-- The all-empty grid of 81 zeros. -/
def emptyGrid : Grid := List.replicate 9 (List.replicate 9 0)

/-- Two 5s in row 0 and every other cell empty. -/
def twoFives : Grid :=
  [5, 5, 0, 0, 0, 0, 0, 0, 0] :: List.replicate 8 (List.replicate 9 0)

/-- A Solved grid whose first row is `1 .. 9`. -/
def shiftedGrid : Grid := [
  [1, 2, 3, 4, 5, 6, 7, 8, 9],
  [4, 5, 6, 7, 8, 9, 1, 2, 3],
  [7, 8, 9, 1, 2, 3, 4, 5, 6],
  [2, 3, 4, 5, 6, 7, 8, 9, 1],
  [5, 6, 7, 8, 9, 1, 2, 3, 4],
  [8, 9, 1, 2, 3, 4, 5, 6, 7],
  [3, 4, 5, 6, 7, 8, 9, 1, 2],
  [6, 7, 8, 9, 1, 2, 3, 4, 5],
  [9, 1, 2, 3, 4, 5, 6, 7, 8]]

/-- The standard "easy" puzzle with 30 pre-filled cells. -/
def easyGrid : Grid := [
  [5, 3, 0, 0, 7, 0, 0, 0, 0],
  [6, 0, 0, 1, 9, 5, 0, 0, 0],
  [0, 9, 8, 0, 0, 0, 0, 6, 0],
  [8, 0, 0, 0, 6, 0, 0, 0, 3],
  [4, 0, 0, 8, 0, 3, 0, 0, 1],
  [7, 0, 0, 0, 2, 0, 0, 0, 6],
  [0, 6, 0, 0, 0, 0, 2, 8, 0],
  [0, 0, 0, 4, 1, 9, 0, 0, 5],
  [0, 0, 0, 0, 8, 0, 0, 7, 9]]

/-- The grid `twoFives` with the digit 1 written into its first empty cell. -/
def fiveFiveOne : Grid :=
  [5, 5, 1, 0, 0, 0, 0, 0, 0] :: List.replicate 8 (List.replicate 9 0)

/-- A grid that is empty but for the digit 5 in the cells `(3, 3)` and `(4, 4)`
of the middle block. -/
def midClash : Grid := [
  [0, 0, 0, 0, 0, 0, 0, 0, 0],
  [0, 0, 0, 0, 0, 0, 0, 0, 0],
  [0, 0, 0, 0, 0, 0, 0, 0, 0],
  [0, 0, 0, 5, 0, 0, 0, 0, 0],
  [0, 0, 0, 0, 5, 0, 0, 0, 0],
  [0, 0, 0, 0, 0, 0, 0, 0, 0],
  [0, 0, 0, 0, 0, 0, 0, 0, 0],
  [0, 0, 0, 0, 0, 0, 0, 0, 0],
  [0, 0, 0, 0, 0, 0, 0, 0, 0]]

/-- The row and column index of the cell read by the block check of `validGrid`
at loop position `(i, j)`:
`grid[(int)(floor(i / 3) * 3 + floor(j / 3))][(i % 3) * 3 + (j % 3)]`. -/
def blockIndex (i j : Nat) : Nat × Nat := (i / 3 * 3 + j / 3, i % 3 * 3 + j % 3)

/-- The grid `S` is below or equal to `T` in the lexicographic order of the 81
cells read in row-major order: the grids have the same cells, or at the first
cell where they differ `S` holds the smaller value. -/
def LexLE (S T : Grid) : Prop :=
  (∀ i < 9, ∀ j < 9, cellAt S i j = cellAt T i j) ∨
  ∃ i < 9, ∃ j < 9, cellAt S i j < cellAt T i j ∧
    ∀ i2 < 9, ∀ j2 < 9, (i2 < i ∨ (i2 = i ∧ j2 < j)) → cellAt S i2 j2 = cellAt T i2 j2

/-! ## `solve` with the heap and the static counter as explicit state -/

/-- The program state around `solve`: the grids allocated so far, addressed by
their position (`none` for a grid released by `freeGrid`); the static counter
`iter`; and the values printed by the progress log. -/
structure Mem where
  heap : List (Option Grid)
  iter : Int
  log : List Int

/-- The increment `iter++` of a 32-bit C `int`, wrapping around. -/
def nextCount (k : Int) : Int := (k + 1 + 2 ^ 31) % 2 ^ 32 - 2 ^ 31

/-- The grid a pointer refers to, if it is allocated and not freed. -/
def Mem.load (m : Mem) (p : Nat) : Option Grid :=
  match m.heap[p]? with
  | some (some g) => some g
  | _ => none

/-- The call `copyGrid(grid)` on the heap: a fresh grid with the cells read
from `grid`. -/
def copyGridM (grid : Nat) (m : Mem) : Option (Nat × Mem) :=
  match m.load grid with
  | none => none
  | some g =>
    match copyGrid g with
    | none => none
    | some copied => some (m.heap.length, { m with heap := m.heap ++ [some copied] })

/-- The assignment `grid[r][c] = v` on the heap. -/
def writeCellM (grid r c : Nat) (v : Int) (m : Mem) : Option Mem :=
  match m.load grid with
  | none => none
  | some g =>
    match writeCell g r c v with
    | none => none
    | some g' => some { m with heap := m.heap.set grid (some g') }

/-- The call `validGrid(grid)` on the heap; it only reads. -/
def validGridM (grid : Nat) (m : Mem) : Option Int :=
  match m.load grid with
  | none => none
  | some g => validGrid g

/-- The scan of `solve` for an empty cell on the heap; it only reads. -/
def findEmptyM (grid : Nat) (m : Mem) : Option (Option (Nat × Nat)) :=
  match m.load grid with
  | none => none
  | some g => findEmpty g

/-- The call `freeGrid(grid)`. -/
def freeGridM (grid : Nat) (m : Mem) : Option Mem :=
  match m.load grid with
  | none => none
  | some _ => some { m with heap := m.heap.set grid none }

/-- The loop after `found:` in `solve`, on the heap; the result is the returned
pointer (`none` for `NULL`) and the state after the loop. -/
def tryDigitsM (self : Nat → Mem → Option (Option Nat × Mem)) (r c : Nat) :
    List Int → Nat → Mem → Option (Option Nat × Mem)
  | [], _, m => some (none, m)
  | d :: ds, nextIter, m =>
    match writeCellM nextIter r c d m with
    | none => none
    | some m1 =>
      match validGridM nextIter m1 with
      | none => none
      | some status =>
        if status = SOLVED then some (some nextIter, m1)
        else if status = SOLVABLE then
          match self nextIter m1 with
          | none => none
          | some (some leaf, m2) =>
            match freeGridM nextIter m2 with
            | none => none
            | some m3 => some (some leaf, m3)
          | some (none, m2) => tryDigitsM self r c ds nextIter m2
        else tryDigitsM self r c ds nextIter m1

/-- The function `solve` on the heap, with a budget on the depth of the
recursion: it logs and increments `iter`, copies its argument, scans the
argument and runs the candidate loop on the copy. -/
def solveMFuel : Nat → Nat → Mem → Option (Option Nat × Mem)
  | 0, _, _ => none
  | fuel + 1, grid, m =>
    match copyGridM grid { m with iter := nextCount m.iter, log := m.log ++ [m.iter] } with
    | none => none
    | some (nextIter, m1) =>
      match findEmptyM grid m1 with
      | none => none
      | some none => some (some nextIter, m1)
      | some (some (r, c)) => tryDigitsM (solveMFuel fuel) r c candidates nextIter m1

/-- The function `solve(grid)` on the heap. -/
def solveM (grid : Nat) (m : Mem) : Option (Option Nat × Mem) :=
  solveMFuel (WIDTH * WIDTH + 1) grid m

/-- The pointer returned on the heap stands for the result `res` of the
functional `solve`: both are `NULL`, or the pointer is at least `b` and refers
to the grid `res`. -/
def Matches (b : Nat) (m : Mem) : Option Nat → Option Grid → Prop
  | none, none => True
  | some q, some S => b ≤ q ∧ m.load q = some S
  | _, _ => False

/-- Two outcomes on the heap agree in everything but the counter and the log:
both are missing, or they return the same pointer and leave the same heap. -/
def SameHeap : Option (Option Nat × Mem) → Option (Option Nat × Mem) → Prop
  | none, none => True
  | some x, some y => x.1 = y.1 ∧ x.2.heap = y.2.heap
  | _, _ => False

/-! # Properties -/

/-! ## Reading well-formed grids -/

theorem readCell_eq {G : Grid} (hG : WellFormed G) {i j : Nat} (hi : i < 9) (hj : j < 9) :
    readCell G i j = some (cellAt G i j) := by
  obtain ⟨hlen, hrows⟩ := hG
  have hi2 : i < G.length := by omega
  have hrow := (hrows G[i] (List.getElem_mem hi2)).1
  have hj2 : j < G[i].length := by omega
  simp [readCell, cellAt, List.getElem?_eq_getElem hi2, List.getD_eq_getElem?_getD,
    List.getElem?_eq_getElem hj2]

theorem cellAt_bounds {G : Grid} (hG : WellFormed G) {i j : Nat} (hi : i < 9) (hj : j < 9) :
    0 ≤ cellAt G i j ∧ cellAt G i j ≤ 9 := by
  obtain ⟨hlen, hrows⟩ := hG
  have hi2 : i < G.length := by omega
  have hrow := hrows G[i] (List.getElem_mem hi2)
  have hj2 : j < G[i].length := by omega
  have := hrow.2 (G[i][j]) (List.getElem_mem hj2)
  simpa [cellAt, List.getElem?_eq_getElem hi2, List.getD_eq_getElem?_getD,
    List.getElem?_eq_getElem hj2] using this

/-! ## The seen-arrays of `validGrid` -/

theorem marks_zeros : Marks zeros (fun _ => False) := by
  refine ⟨by simp [zeros, WIDTH], ?_⟩
  intro k hk
  interval_cases k <;> simp [zeros, WIDTH]

theorem check_zero (a : List Int) : check a (some 0) = .next a := by
  simp [check]

theorem check_succ (a : List Int) (k : Nat) (hk : k < a.length) :
    check a (some ((k : Int) + 1)) =
      if a[k] = 0 then .next (a.set k 1) else .ret INVALID := by
  have hne : (k : Int) + 1 ≠ 0 := by omega
  have hread : readSeen a ((k : Int) + 1 - 1) = some a[k] := by
    simp [readSeen, List.getElem?_eq_getElem hk]
  simp only [check, hne, hread, ne_eq, not_false_eq_true, if_true]
  simp

theorem check_spec {a : List Int} {P : Int → Prop} (h : Marks a P) {v : Int}
    (hv0 : 0 ≤ v) (hv9 : v ≤ 9) :
    ((v ≠ 0 ∧ P v) ∧ check a (some v) = .ret INVALID) ∨
    (¬(v ≠ 0 ∧ P v) ∧ ∃ a', check a (some v) = .next a' ∧
      Marks a' (fun d => P d ∨ (v ≠ 0 ∧ d = v))) := by
  obtain ⟨hlen, hP⟩ := h
  by_cases hz : v = 0
  · subst hz
    right
    refine ⟨by simp, a, check_zero a, hlen, ?_⟩
    intro k hk
    simpa using hP k hk
  · obtain ⟨k, rfl⟩ : ∃ k : Nat, v = (k : Int) + 1 := ⟨(v - 1).toNat, by omega⟩
    have hk : k < a.length := by omega
    have hPv := hP k (by omega)
    simp only [List.getD_eq_getElem?_getD, List.getElem?_eq_getElem hk, Option.getD_some] at hPv
    rw [check_succ a k hk]
    by_cases hs : a[k] = 0
    · right
      have hnP : ¬ P ((k : Int) + 1) := fun hp => (hPv.2 hp) hs
      refine ⟨fun h => hnP h.2, a.set k 1, by simp [hs], by simpa using hlen, ?_⟩
      intro d hd
      have hd2 := hP d hd
      by_cases hdk : d = k
      · subst hdk
        simp [List.getD_eq_getElem?_getD, List.getElem?_set, hk, hz]
      · have hne : k ≠ d := fun h => hdk h.symm
        have hne2 : ¬ ((d : Int) + 1 = (k : Int) + 1) := by omega
        simp only [List.getD_eq_getElem?_getD, List.getElem?_set, hne, if_false] at hd2 ⊢
        simp [hd2, hne2]
    · left
      exact ⟨⟨hz, hPv.1 hs⟩, by simp [hs]⟩

/-! ## The loops of `validGrid` on a well-formed grid -/

theorem body_spec {G : Grid} (hG : WellFormed G) {i j : Nat} (hi : i < 9) (hj : j < 9)
    (st : Seen) {Pr Pc Pb : Int → Prop} (hr : Marks st.checkedRow Pr)
    (hc : Marks st.checkedCol Pc) (hb : Marks st.checkedBlock Pb) :
    (((cellAt G i j ≠ 0 ∧ Pr (cellAt G i j)) ∨ (cellAt G j i ≠ 0 ∧ Pc (cellAt G j i)) ∨
        (blockCell G i j ≠ 0 ∧ Pb (blockCell G i j))) ∧ body G i j st = .ret INVALID) ∨
    (¬((cellAt G i j ≠ 0 ∧ Pr (cellAt G i j)) ∨ (cellAt G j i ≠ 0 ∧ Pc (cellAt G j i)) ∨
        (blockCell G i j ≠ 0 ∧ Pb (blockCell G i j))) ∧
      ∃ st', body G i j st = .next st' ∧
        st'.status = (if cellAt G i j = 0 then SOLVABLE else st.status) ∧
        Marks st'.checkedRow (fun d => Pr d ∨ (cellAt G i j ≠ 0 ∧ d = cellAt G i j)) ∧
        Marks st'.checkedCol (fun d => Pc d ∨ (cellAt G j i ≠ 0 ∧ d = cellAt G j i)) ∧
        Marks st'.checkedBlock
          (fun d => Pb d ∨ (blockCell G i j ≠ 0 ∧ d = blockCell G i j))) := by
  have hbi : i / 3 * 3 + j / 3 < 9 := by omega
  have hbj : i % 3 * 3 + j % 3 < 9 := by omega
  have e1 := readCell_eq hG hi hj
  have e2 := readCell_eq hG hj hi
  have e3 := readCell_eq hG hbi hbj
  have b1 := cellAt_bounds hG hi hj
  have b2 := cellAt_bounds hG hj hi
  have b3 := cellAt_bounds hG hbi hbj
  unfold blockCell
  simp only [body, e1, e2, e3]
  rcases check_spec hr b1.1 b1.2 with ⟨h1, q1⟩ | ⟨h1, a1, q1, m1⟩
  · left
    exact ⟨Or.inl h1, by simp [q1, Flow.bind]⟩
  rcases check_spec hc b2.1 b2.2 with ⟨h2, q2⟩ | ⟨h2, a2, q2, m2⟩
  · left
    exact ⟨Or.inr (Or.inl h2), by simp [q1, q2, Flow.bind]⟩
  rcases check_spec hb b3.1 b3.2 with ⟨h3, q3⟩ | ⟨h3, a3, q3, m3⟩
  · left
    exact ⟨Or.inr (Or.inr h3), by simp [q1, q2, q3, Flow.bind]⟩
  right
  exact ⟨by tauto, ⟨if cellAt G i j = 0 then SOLVABLE else st.status, a1, a2, a3⟩,
    by simp only [q1, q2, q3, Flow.bind], rfl, m1, m2, m3⟩

theorem innerLoop_spec {G : Grid} (hG : WellFormed G) {i : Nat} (hi : i < 9) :
    ∀ (js : List Nat), (∀ j ∈ js, j < 9) → ∀ (st : Seen) (Pr Pc Pb : Int → Prop),
      Marks st.checkedRow Pr → Marks st.checkedCol Pc → Marks st.checkedBlock Pb →
      ((Clash Pr (js.map (cellAt G i)) ∨ Clash Pc (js.map fun j => cellAt G j i) ∨
          Clash Pb (js.map (blockCell G i))) ∧ innerLoop G i js st = .ret INVALID) ∨
      (¬(Clash Pr (js.map (cellAt G i)) ∨ Clash Pc (js.map fun j => cellAt G j i) ∨
          Clash Pb (js.map (blockCell G i))) ∧
        ∃ st', innerLoop G i js st = .next st' ∧
          ((st'.status = SOLVABLE ∧ ∃ j ∈ js, cellAt G i j = 0) ∨
            (st'.status = st.status ∧ ∀ j ∈ js, cellAt G i j ≠ 0))) := by
  intro js
  induction js with
  | nil =>
    intro _ st Pr Pc Pb _ _ _
    right
    exact ⟨by simp [Clash], st, rfl, Or.inr ⟨rfl, by simp⟩⟩
  | cons j js ih =>
    intro hjs st Pr Pc Pb hr hc hb
    have hj : j < 9 := hjs j (List.mem_cons_self _ _)
    have hjs2 : ∀ x ∈ js, x < 9 := fun x hx => hjs x (List.mem_cons_of_mem _ hx)
    simp only [List.map_cons, Clash, innerLoop]
    rcases body_spec hG hi hj st hr hc hb with ⟨h, q⟩ | ⟨h, st1, q, hs, m1, m2, m3⟩
    · left
      refine ⟨by tauto, by simp [q, Flow.bind]⟩
    · rcases ih hjs2 st1 _ _ _ m1 m2 m3 with ⟨h2, q2⟩ | ⟨h2, st2, q2, hs2⟩
      · left
        refine ⟨by tauto, by simp only [q, Flow.bind, q2]⟩
      · right
        refine ⟨by tauto, st2, by simp only [q, Flow.bind, q2], ?_⟩
        rcases hs2 with ⟨e, j2, hj2, hz⟩ | ⟨e, hall⟩
        · exact Or.inl ⟨e, j2, List.mem_cons_of_mem _ hj2, hz⟩
        · by_cases hz : cellAt G i j = 0
          · left
            rw [e, hs, if_pos hz]
            exact ⟨rfl, j, List.mem_cons_self _ _, hz⟩
          · right
            rw [e, hs, if_neg hz]
            refine ⟨rfl, ?_⟩
            intro x hx
            rcases List.mem_cons.1 hx with rfl | hx
            · exact hz
            · exact hall x hx

theorem clash_map_iff (f : Nat → Int) : ∀ (js : List Nat), js.Nodup → ∀ P : Int → Prop,
    (Clash P (js.map f) ↔ (∃ j ∈ js, f j ≠ 0 ∧ P (f j)) ∨
      (∃ j ∈ js, ∃ k ∈ js, j ≠ k ∧ f j ≠ 0 ∧ f j = f k)) := by
  intro js
  induction js with
  | nil => intro _ P; simp [Clash]
  | cons j0 js ih =>
    intro hnd P
    obtain ⟨hnot, hnd2⟩ := List.nodup_cons.1 hnd
    simp only [List.map_cons, Clash]
    rw [ih hnd2]
    constructor
    · rintro (h | ⟨j, hj, hne, hP | ⟨h0, he⟩⟩ | ⟨j, hj, k, hk, hjk, hne, he⟩)
      · exact Or.inl ⟨j0, List.mem_cons_self _ _, h⟩
      · exact Or.inl ⟨j, List.mem_cons_of_mem _ hj, hne, hP⟩
      · refine Or.inr ⟨j, List.mem_cons_of_mem _ hj, j0, List.mem_cons_self _ _, ?_, hne, he⟩
        rintro rfl
        exact hnot hj
      · exact Or.inr ⟨j, List.mem_cons_of_mem _ hj, k, List.mem_cons_of_mem _ hk, hjk, hne, he⟩
    · rintro (⟨j, hj, hne, hP⟩ | ⟨j, hj, k, hk, hjk, hne, he⟩)
      · rcases List.mem_cons.1 hj with rfl | hj
        · exact Or.inl ⟨hne, hP⟩
        · exact Or.inr (Or.inl ⟨j, hj, hne, Or.inl hP⟩)
      · rcases List.mem_cons.1 hj with ej | hj' <;> rcases List.mem_cons.1 hk with ek | hk'
        · exact absurd (ej.trans ek.symm) hjk
        · subst ej
          refine Or.inr (Or.inl ⟨k, hk', ?_, Or.inr ⟨hne, he.symm⟩⟩)
          rw [← he]; exact hne
        · subst ek
          exact Or.inr (Or.inl ⟨j, hj', hne, Or.inr ⟨by rw [← he]; exact hne, he⟩⟩)
        · exact Or.inr (Or.inr ⟨j, hj', k, hk', hjk, hne, he⟩)

theorem clash_range_iff (f : Nat → Int) :
    Clash (fun _ => False) ((List.range WIDTH).map f) ↔
      ∃ j < 9, ∃ k < 9, j ≠ k ∧ f j ≠ 0 ∧ f j = f k := by
  rw [clash_map_iff f _ (List.nodup_range _)]
  simp [WIDTH, List.mem_range]

theorem outerLoop_spec {G : Grid} (hG : WellFormed G) :
    ∀ (is : List Nat), (∀ i ∈ is, i < 9) → ∀ (status : Int),
      ((∃ i ∈ is, DupAt G i) ∧ outerLoop G is status = .ret INVALID) ∨
      (¬(∃ i ∈ is, DupAt G i) ∧
        ∃ s', outerLoop G is status = .next s' ∧
          ((s' = SOLVABLE ∧ ∃ i ∈ is, ∃ j < 9, cellAt G i j = 0) ∨
            (s' = status ∧ ∀ i ∈ is, ∀ j < 9, cellAt G i j ≠ 0))) := by
  intro is
  induction is with
  | nil =>
    intro _ status
    right
    exact ⟨by simp, status, rfl, Or.inr ⟨rfl, by simp⟩⟩
  | cons i is ih =>
    intro his status
    have hi : i < 9 := his i (List.mem_cons_self _ _)
    have his2 : ∀ x ∈ is, x < 9 := fun x hx => his x (List.mem_cons_of_mem _ hx)
    have hrange : ∀ j ∈ List.range WIDTH, j < 9 := fun j hj => by
      simpa [WIDTH] using hj
    have key := innerLoop_spec hG hi (List.range WIDTH) hrange ⟨status, zeros, zeros, zeros⟩
      _ _ _ marks_zeros marks_zeros marks_zeros
    rw [clash_range_iff, clash_range_iff, clash_range_iff] at key
    simp only [outerLoop]
    rcases key with ⟨h, q⟩ | ⟨h, st1, q, hs⟩
    · left
      exact ⟨⟨i, List.mem_cons_self _ _, h⟩, by simp [q, Flow.bind]⟩
    · have hnd : ¬ DupAt G i := h
      rcases ih his2 st1.status with ⟨⟨i2, hi2, hd⟩, q2⟩ | ⟨h2, s2, q2, hs2⟩
      · left
        exact ⟨⟨i2, List.mem_cons_of_mem _ hi2, hd⟩, by simp only [q, Flow.bind, q2]⟩
      · right
        refine ⟨?_, s2, by simp only [q, Flow.bind, q2], ?_⟩
        · rintro ⟨x, hx, hd⟩
          rcases List.mem_cons.1 hx with rfl | hx
          · exact hnd hd
          · exact h2 ⟨x, hx, hd⟩
        · rcases hs2 with ⟨e, x, hx, hz⟩ | ⟨e, hall⟩
          · exact Or.inl ⟨e, x, List.mem_cons_of_mem _ hx, hz⟩
          · rcases hs with ⟨e1, j, hj, hz⟩ | ⟨e1, hall1⟩
            · left
              refine ⟨by rw [e, e1], i, List.mem_cons_self _ _, j, hrange j hj, hz⟩
            · right
              refine ⟨by rw [e, e1], ?_⟩
              intro x hx j hj
              rcases List.mem_cons.1 hx with rfl | hx
              · exact hall1 j (by simpa [WIDTH] using hj)
              · exact hall x hx j hj

theorem hasDup_iff_dupAt (G : Grid) : HasDup G ↔ ∃ i < 9, DupAt G i := by
  constructor
  · rintro (⟨i, hi, h⟩ | ⟨i, hi, h⟩ | ⟨r, hr, c, hc, r2, hr2, c2, hc2, hne, hbr, hbc, hz, he⟩)
    · exact ⟨i, hi, Or.inl h⟩
    · exact ⟨i, hi, Or.inr (Or.inl h)⟩
    · refine ⟨r / 3 * 3 + c / 3, by omega, Or.inr (Or.inr
        ⟨r % 3 * 3 + c % 3, by omega, r2 % 3 * 3 + c2 % 3, by omega, by omega, ?_, ?_⟩)⟩
      · have e1 : (r / 3 * 3 + c / 3) / 3 * 3 + (r % 3 * 3 + c % 3) / 3 = r := by omega
        have e2 : (r / 3 * 3 + c / 3) % 3 * 3 + (r % 3 * 3 + c % 3) % 3 = c := by omega
        simp only [blockCell, e1, e2]
        exact hz
      · have e1 : (r / 3 * 3 + c / 3) / 3 * 3 + (r % 3 * 3 + c % 3) / 3 = r := by omega
        have e2 : (r / 3 * 3 + c / 3) % 3 * 3 + (r % 3 * 3 + c % 3) % 3 = c := by omega
        have e3 : (r / 3 * 3 + c / 3) / 3 * 3 + (r2 % 3 * 3 + c2 % 3) / 3 = r2 := by omega
        have e4 : (r / 3 * 3 + c / 3) % 3 * 3 + (r2 % 3 * 3 + c2 % 3) % 3 = c2 := by omega
        simp only [blockCell, e1, e2, e3, e4]
        exact he
  · rintro ⟨i, hi, h | h | ⟨j, hj, k, hk, hjk, hz, he⟩⟩
    · exact Or.inl ⟨i, hi, h⟩
    · exact Or.inr (Or.inl ⟨i, hi, h⟩)
    · exact Or.inr (Or.inr ⟨i / 3 * 3 + j / 3, by omega, i % 3 * 3 + j % 3, by omega,
        i / 3 * 3 + k / 3, by omega, i % 3 * 3 + k % 3, by omega, by omega, by omega, by omega,
        hz, he⟩)

/-- On a well-formed grid `validGrid` makes no out-of-bounds access and returns
`INVALID` on a repeated digit, else `SOLVABLE` with an empty cell, else
`SOLVED`. -/
theorem validGrid_spec {G : Grid} (hG : WellFormed G) :
    (HasDup G ∧ validGrid G = some INVALID) ∨
    (¬HasDup G ∧ HasEmpty G ∧ validGrid G = some SOLVABLE) ∨
    (¬HasDup G ∧ ¬HasEmpty G ∧ validGrid G = some SOLVED) := by
  have hrange : ∀ i ∈ List.range WIDTH, i < 9 := fun i hi => by simpa [WIDTH] using hi
  have hmem : ∀ i, i < 9 → i ∈ List.range WIDTH := fun i hi => by simpa [WIDTH] using hi
  rcases outerLoop_spec hG (List.range WIDTH) hrange SOLVED with
    ⟨⟨i, hi, hd⟩, q⟩ | ⟨h, s, q, hs⟩
  · left
    exact ⟨(hasDup_iff_dupAt G).2 ⟨i, hrange i hi, hd⟩, by simp [validGrid, q]⟩
  · have hnd : ¬ HasDup G := by
      rw [hasDup_iff_dupAt]
      rintro ⟨i, hi, hd⟩
      exact h ⟨i, hmem i hi, hd⟩
    right
    rcases hs with ⟨e, i, hi, j, hj, hz⟩ | ⟨e, hall⟩
    · left
      exact ⟨hnd, ⟨i, hrange i hi, j, hj, hz⟩, by simp [validGrid, q, e]⟩
    · right
      refine ⟨hnd, ?_, by simp [validGrid, q, e]⟩
      rintro ⟨i, hi, j, hj, hz⟩
      exact hall i (hmem i hi) j hj hz

/-! ## Grids as tables of cells -/

theorem map_getD_range {α : Type} (l : List α) (d : α) (n : Nat) (h : l.length = n) :
    (List.range n).map (fun i => l.getD i d) = l := by
  apply List.ext_getElem
  · simp [h]
  · intro i h1 h2
    simp [List.getD_eq_getElem?_getD, List.getElem?_eq_getElem h2]

theorem row_length {G : Grid} (hG : WellFormed G) {i : Nat} (hi : i < 9) :
    (G.getD i []).length = 9 := by
  have hi2 : i < G.length := by rw [hG.1]; exact hi
  have := (hG.2 G[i] (List.getElem_mem hi2)).1
  simpa [List.getD_eq_getElem?_getD, List.getElem?_eq_getElem hi2] using this

/-- Two well-formed grids with the same cells are the same grid. -/
theorem grid_ext {G T : Grid} (hG : WellFormed G) (hT : WellFormed T)
    (h : ∀ i < 9, ∀ j < 9, cellAt G i j = cellAt T i j) : G = T := by
  rw [← map_getD_range G [] 9 hG.1, ← map_getD_range T [] 9 hT.1]
  apply List.map_congr_left
  intro i hi
  have hi9 : i < 9 := List.mem_range.1 hi
  show G.getD i [] = T.getD i []
  rw [← map_getD_range (G.getD i []) 0 9 (row_length hG hi9),
    ← map_getD_range (T.getD i []) 0 9 (row_length hT hi9)]
  apply List.map_congr_left
  intro j hj
  exact h i hi9 j (List.mem_range.1 hj)

/-! ## `copyGrid` on a well-formed grid -/

theorem copyRow_eq {G : Grid} (hG : WellFormed G) {i : Nat} (hi : i < 9) :
    ∀ js : List Nat, (∀ j ∈ js, j < 9) → copyRow G i js = some (js.map (cellAt G i)) := by
  intro js
  induction js with
  | nil => intro _; rfl
  | cons j js ih =>
    intro h
    have hj : j < 9 := h j (List.mem_cons_self _ _)
    simp [copyRow, readCell_eq hG hi hj, ih (fun x hx => h x (List.mem_cons_of_mem _ hx))]

theorem copyRows_eq {G : Grid} (hG : WellFormed G) :
    ∀ is : List Nat, (∀ i ∈ is, i < 9) →
      copyRows G is = some (is.map fun i => G.getD i []) := by
  intro is
  induction is with
  | nil => intro _; rfl
  | cons i is ih =>
    intro h
    have hi : i < 9 := h i (List.mem_cons_self _ _)
    have hrange : ∀ j ∈ List.range WIDTH, j < 9 := fun j hj => by simpa [WIDTH] using hj
    have hrow : (List.range WIDTH).map (cellAt G i) = G.getD i [] :=
      map_getD_range (G.getD i []) 0 9 (row_length hG hi)
    simp [copyRows, copyRow_eq hG hi _ hrange, hrow,
      ih (fun x hx => h x (List.mem_cons_of_mem _ hx))]

/-- The copy of a well-formed grid is that grid, cell for cell. -/
theorem copyGrid_eq {G : Grid} (hG : WellFormed G) : copyGrid G = some G := by
  have hrange : ∀ j ∈ List.range WIDTH, j < 9 := fun j hj => by simpa [WIDTH] using hj
  rw [copyGrid, copyRows_eq hG _ hrange]
  exact congrArg some (map_getD_range G [] 9 hG.1)

/-! ## The scan for an empty cell -/

theorem scanRow_spec {G : Grid} (hG : WellFormed G) {i : Nat} (hi : i < 9) :
    ∀ js : List Nat, (∀ j ∈ js, j < 9) →
      (∃ j ∈ js, cellAt G i j = 0 ∧ scanRow G i js = some (some (i, j))) ∨
      ((∀ j ∈ js, cellAt G i j ≠ 0) ∧ scanRow G i js = some none) := by
  intro js
  induction js with
  | nil => intro _; exact Or.inr ⟨by simp, rfl⟩
  | cons j js ih =>
    intro h
    have hj : j < 9 := h j (List.mem_cons_self _ _)
    by_cases hz : cellAt G i j = 0
    · left
      exact ⟨j, List.mem_cons_self _ _, hz, by simp [scanRow, readCell_eq hG hi hj, hz]⟩
    · rcases ih (fun x hx => h x (List.mem_cons_of_mem _ hx)) with ⟨k, hk, hkz, q⟩ | ⟨hall, q⟩
      · left
        exact ⟨k, List.mem_cons_of_mem _ hk, hkz, by simp [scanRow, readCell_eq hG hi hj, hz, q]⟩
      · right
        refine ⟨?_, by simp [scanRow, readCell_eq hG hi hj, hz, q]⟩
        intro x hx
        rcases List.mem_cons.1 hx with rfl | hx
        · exact hz
        · exact hall x hx

theorem scanRows_spec {G : Grid} (hG : WellFormed G) :
    ∀ is : List Nat, (∀ i ∈ is, i < 9) →
      (∃ i ∈ is, ∃ j < 9, cellAt G i j = 0 ∧ scanRows G is = some (some (i, j))) ∨
      ((∀ i ∈ is, ∀ j < 9, cellAt G i j ≠ 0) ∧ scanRows G is = some none) := by
  intro is
  induction is with
  | nil => intro _; exact Or.inr ⟨by simp, rfl⟩
  | cons i is ih =>
    intro h
    have hi : i < 9 := h i (List.mem_cons_self _ _)
    have hrange : ∀ j ∈ List.range WIDTH, j < 9 := fun j hj => by simpa [WIDTH] using hj
    rcases scanRow_spec hG hi _ hrange with ⟨j, hj, hz, q⟩ | ⟨hall, q⟩
    · left
      exact ⟨i, List.mem_cons_self _ _, j, hrange j hj, hz, by simp [scanRows, q]⟩
    · rcases ih (fun x hx => h x (List.mem_cons_of_mem _ hx)) with
        ⟨k, hk, j, hj, hz, q2⟩ | ⟨hall2, q2⟩
      · left
        exact ⟨k, List.mem_cons_of_mem _ hk, j, hj, hz, by simp [scanRows, q, q2]⟩
      · right
        refine ⟨?_, by simp [scanRows, q, q2]⟩
        intro x hx j hj
        rcases List.mem_cons.1 hx with rfl | hx
        · exact hall j (by simpa [WIDTH] using hj)
        · exact hall2 x hx j hj

/-- On a well-formed grid the scan of `solve` either jumps to `found` at an
empty cell, or finds that no cell is empty. -/
theorem findEmpty_spec {G : Grid} (hG : WellFormed G) :
    (∃ r < 9, ∃ c < 9, cellAt G r c = 0 ∧ findEmpty G = some (some (r, c))) ∨
    (¬HasEmpty G ∧ findEmpty G = some none) := by
  have hrange : ∀ j ∈ List.range WIDTH, j < 9 := fun j hj => by simpa [WIDTH] using hj
  rcases scanRows_spec hG _ hrange with ⟨i, hi, j, hj, hz, q⟩ | ⟨hall, q⟩
  · exact Or.inl ⟨i, hrange i hi, j, hj, hz, q⟩
  · right
    refine ⟨?_, q⟩
    rintro ⟨i, hi, j, hj, hz⟩
    exact hall i (by simpa [WIDTH] using hi) j hj hz

/-! ## Writing a cell -/

theorem writeCell_spec {G : Grid} (hG : WellFormed G) {r c : Nat} (hr : r < 9) (hc : c < 9)
    (v : Int) :
    ∃ G', writeCell G r c v = some G' ∧ (0 ≤ v → v ≤ 9 → WellFormed G') ∧
      ∀ i j, cellAt G' i j = if i = r ∧ j = c then v else cellAt G i j := by
  have hr2 : r < G.length := by rw [hG.1]; exact hr
  have hrow := (hG.2 G[r] (List.getElem_mem hr2)).1
  have hc2 : c < G[r].length := by rw [hrow]; exact hc
  refine ⟨G.set r (G[r].set c v), by simp [writeCell, List.getElem?_eq_getElem hr2, hc2], ?_, ?_⟩
  · intro h0 h9
    refine ⟨by simpa using hG.1, ?_⟩
    intro row hmem
    rcases List.mem_or_eq_of_mem_set hmem with h | h
    · exact hG.2 row h
    · subst h
      refine ⟨by simpa using hrow, ?_⟩
      intro x hx
      rcases List.mem_or_eq_of_mem_set hx with h | h
      · exact (hG.2 G[r] (List.getElem_mem hr2)).2 x h
      · subst h; exact ⟨h0, h9⟩
  · intro i j
    by_cases hi : i = r
    · subst hi
      by_cases hj : j = c
      · subst hj
        simp [cellAt, List.getD_eq_getElem?_getD, List.getElem?_set, hr2, hc2]
      · have hj2 : ¬ c = j := fun h => hj h.symm
        simp [cellAt, List.getD_eq_getElem?_getD, List.getElem?_set, hr2, hj, hj2,
          List.getElem?_eq_getElem hr2]
    · have hi2 : ¬ r = i := fun h => hi h.symm
      simp [cellAt, List.getD_eq_getElem?_getD, List.getElem?_set, hi, hi2]

/-! ## Filling cells keeps repeated digits -/

theorem agrees_refl (G : Grid) : Agrees G G := fun _ _ _ _ _ => rfl

theorem agrees_trans {G H T : Grid} (h1 : Agrees G H) (h2 : Agrees H T) : Agrees G T := by
  intro i hi j hj hz
  have e := h1 i hi j hj hz
  rw [← e]
  exact h2 i hi j hj (by rw [e]; exact hz)

/-- A repeated digit of `G` is still there in every grid that keeps the filled
cells of `G`. -/
theorem hasDup_of_agrees {G T : Grid} (h : Agrees G T) (hd : HasDup G) : HasDup T := by
  rcases hd with ⟨i, hi, j, hj, k, hk, hjk, hz, he⟩ | ⟨i, hi, j, hj, k, hk, hjk, hz, he⟩ |
    ⟨r, hr, c, hc, r2, hr2, c2, hc2, hne, hbr, hbc, hz, he⟩
  · have e1 := h i hi j hj hz
    have e2 := h i hi k hk (by rw [← he]; exact hz)
    exact Or.inl ⟨i, hi, j, hj, k, hk, hjk, by rw [e1]; exact hz, by rw [e1, e2]; exact he⟩
  · have e1 := h j hj i hi hz
    have e2 := h k hk i hi (by rw [← he]; exact hz)
    exact Or.inr (Or.inl ⟨i, hi, j, hj, k, hk, hjk, by rw [e1]; exact hz,
      by rw [e1, e2]; exact he⟩)
  · have e1 := h r hr c hc hz
    have e2 := h r2 hr2 c2 hc2 (by rw [← he]; exact hz)
    exact Or.inr (Or.inr ⟨r, hr, c, hc, r2, hr2, c2, hc2, hne, hbr, hbc, by rw [e1]; exact hz,
      by rw [e1, e2]; exact he⟩)

theorem validGrid_invalid_of_hasDup {G : Grid} (hG : WellFormed G) (hd : HasDup G) :
    validGrid G = some INVALID := by
  rcases validGrid_spec hG with ⟨_, q⟩ | ⟨h, _⟩ | ⟨h, _⟩
  · exact q
  · exact absurd hd h
  · exact absurd hd h

theorem not_hasDup_of_solved {G : Grid} (hG : WellFormed G) (h : validGrid G = some SOLVED) :
    ¬HasDup G := by
  intro hd
  rw [validGrid_invalid_of_hasDup hG hd] at h
  exact absurd h (by decide)

/-- A grid with a repeated digit has no Solved completion. -/
theorem no_completion_of_hasDup {G T : Grid} (hd : HasDup G) : ¬Completion G T := by
  rintro ⟨hT, _, hs, ha⟩
  exact not_hasDup_of_solved hT hs (hasDup_of_agrees ha hd)

/-! ## The measure of the recursion -/

theorem emptyCount_le (G : Grid) : emptyCount G ≤ 81 := by
  unfold emptyCount emptyCells
  refine (Finset.card_filter_le _ _).trans ?_
  simp

theorem emptyCount_lt {G W : Grid} {r c : Nat} {d : Int} (hr : r < 9) (hc : c < 9)
    (hz : cellAt G r c = 0) (hd : d ≠ 0)
    (hW : ∀ i j, cellAt W i j = if i = r ∧ j = c then d else cellAt G i j) :
    emptyCount W < emptyCount G := by
  unfold emptyCount
  apply Finset.card_lt_card
  rw [Finset.ssubset_iff_of_subset]
  · refine ⟨(r, c), ?_, ?_⟩
    · simp [emptyCells, hr, hc, hz]
    · simp [emptyCells, hW, hd]
  · intro p hp
    simp only [emptyCells, Finset.mem_filter, Finset.mem_product, Finset.mem_range] at hp ⊢
    refine ⟨hp.1, ?_⟩
    have h2 := hp.2
    rw [hW] at h2
    by_cases h : p.1 = r ∧ p.2 = c
    · rw [if_pos h] at h2; exact absurd h2 hd
    · rw [if_neg h] at h2; exact h2

/-! ## The candidate loop and the recursion of `solve` -/

theorem mem_candidates {d : Int} : d ∈ candidates ↔ 1 ≤ d ∧ d ≤ 9 := by
  simp only [candidates, WIDTH, List.mem_map, List.mem_range]
  constructor
  · rintro ⟨k, hk, rfl⟩; omega
  · intro h; exact ⟨(d - 1).toNat, by omega, by omega⟩

theorem completion_cell_bounds {G T : Grid} (h : Completion G T) {r c : Nat} (hr : r < 9)
    (hc : c < 9) : 1 ≤ cellAt T r c ∧ cellAt T r c ≤ 9 := by
  obtain ⟨hT, hne, _, _⟩ := h
  have hb := cellAt_bounds hT hr hc
  have hnz : cellAt T r c ≠ 0 := fun hz => hne ⟨r, hr, c, hc, hz⟩
  omega

/-- A completion of `G` that holds `d` at cell `(r, c)` is a completion of the
grid obtained from `G` by writing `d` there. -/
theorem completion_step {G W T : Grid} {r c : Nat} {d : Int}
    (hW : ∀ i j, cellAt W i j = if i = r ∧ j = c then d else cellAt G i j)
    (hT : Completion G T) (hd : cellAt T r c = d) : Completion W T := by
  obtain ⟨h1, h2, h3, h4⟩ := hT
  refine ⟨h1, h2, h3, ?_⟩
  intro i hi j hj hz
  rw [hW] at hz ⊢
  by_cases h : i = r ∧ j = c
  · rw [if_pos h]; rw [h.1, h.2]; exact hd
  · rw [if_neg h] at hz ⊢; exact h4 i hi j hj hz

theorem tryDigits_spec {n : Nat}
    (ih : ∀ H, WellFormed H → emptyCount H < n → ∃ res, solveFuel n H = some res ∧ SolveSpec H res)
    {G : Grid} {r c : Nat} (hr : r < 9) (hc : c < 9)
    (hz : cellAt G r c = 0) (hcount : emptyCount G < n + 1) :
    ∀ ds : List Int, (∀ d ∈ ds, 1 ≤ d ∧ d ≤ 9) → ∀ W, WellFormed W →
      (∀ i j, ¬(i = r ∧ j = c) → cellAt W i j = cellAt G i j) →
      ∃ res, tryDigits (solveFuel n) r c ds W = some res ∧
        (∀ S, res = some S → Completion G S) ∧
        (res = none → ∀ T, Completion G T → cellAt T r c ∉ ds) := by
  intro ds
  induction ds with
  | nil =>
    intro _ W _ _
    exact ⟨none, rfl, by simp, by simp⟩
  | cons d ds ihd =>
    intro hds W hWF hoff
    have hd := hds d (List.mem_cons_self _ _)
    have hds2 : ∀ x ∈ ds, 1 ≤ x ∧ x ≤ 9 := fun x hx => hds x (List.mem_cons_of_mem _ hx)
    obtain ⟨W', hw, hwf, hcell⟩ := writeCell_spec hWF hr hc d
    have hWF' : WellFormed W' := hwf (by omega) hd.2
    have hcell' : ∀ i j, cellAt W' i j = if i = r ∧ j = c then d else cellAt G i j := by
      intro i j
      rw [hcell]
      by_cases h : i = r ∧ j = c
      · simp [h]
      · rw [if_neg h, if_neg h]; exact hoff i j h
    have hoff' : ∀ i j, ¬(i = r ∧ j = c) → cellAt W' i j = cellAt G i j := by
      intro i j h
      rw [hcell', if_neg h]
    have hagree : Agrees G W' := by
      intro i _ j _ hnz
      apply hoff'
      rintro ⟨rfl, rfl⟩
      exact hnz hz
    have hskip : ∀ res, tryDigits (solveFuel n) r c ds W' = some res →
        (∀ T, ¬Completion W' T) →
        (∀ S, res = some S → Completion G S) →
        (res = none → ∀ T, Completion G T → cellAt T r c ∉ ds) →
        (res = none → ∀ T, Completion G T → cellAt T r c ∉ d :: ds) := by
      intro res _ hno _ h2 hres T hT hmem
      rcases List.mem_cons.1 hmem with h | h
      · exact hno T (completion_step hcell' hT h)
      · exact h2 hres T hT h
    obtain ⟨res, hq, hs1, hs2⟩ := ihd hds2 W' hWF' hoff'
    simp only [tryDigits, hw]
    rcases validGrid_spec hWF' with ⟨hdup, q⟩ | ⟨hnd, he, q⟩ | ⟨hnd, hne, q⟩
    · have e1 : ¬ INVALID = SOLVED := by decide
      have e2 : ¬ INVALID = SOLVABLE := by decide
      simp only [q, e1, e2, if_false]
      exact ⟨res, hq, hs1, hskip res hq (fun T => no_completion_of_hasDup hdup) hs1 hs2⟩
    · have e1 : ¬ SOLVABLE = SOLVED := by decide
      simp only [q, e1, if_false, if_true]
      have hlt : emptyCount W' < n := by
        have := emptyCount_lt hr hc hz (by omega : d ≠ 0) hcell'
        omega
      obtain ⟨res', hq', hspec⟩ := ih W' hWF' hlt
      rw [hq']
      cases res' with
      | some leaf =>
        refine ⟨some leaf, rfl, ?_, by simp⟩
        intro S hS
        cases hS
        rcases hspec with ⟨_, hc1⟩ | ⟨hne, _⟩
        · exact ⟨hc1.1, hc1.2.1, hc1.2.2.1, agrees_trans hagree hc1.2.2.2⟩
        · exact absurd he hne
      | none =>
        exact ⟨res, hq, hs1, hskip res hq hspec.2 hs1 hs2⟩
    · simp only [q, if_true]
      refine ⟨some W', rfl, ?_, by simp⟩
      intro S hS
      cases hS
      exact ⟨hWF', hne, q, hagree⟩

theorem solveFuel_spec : ∀ (n : Nat) (G : Grid), WellFormed G → emptyCount G < n →
    ∃ res, solveFuel n G = some res ∧ SolveSpec G res := by
  intro n
  induction n with
  | zero => intro G _ h; exact absurd h (Nat.not_lt_zero _)
  | succ n ih =>
    intro G hG hcount
    simp only [solveFuel, copyGrid_eq hG]
    rcases findEmpty_spec hG with ⟨r, hr, c, hc, hz, q⟩ | ⟨hne, q⟩
    · simp only [q]
      obtain ⟨res, hq, hs1, hs2⟩ := tryDigits_spec ih hr hc hz hcount candidates
        (fun d hd => mem_candidates.1 hd) G hG (fun _ _ _ => rfl)
      refine ⟨res, hq, ?_⟩
      have hE : HasEmpty G := ⟨r, hr, c, hc, hz⟩
      cases res with
      | some S => exact Or.inl ⟨hE, hs1 S rfl⟩
      | none =>
        refine ⟨hE, fun T hT => ?_⟩
        exact hs2 rfl T hT (mem_candidates.2 (completion_cell_bounds hT hr hc))
    · simp only [q]
      exact ⟨some G, rfl, Or.inr ⟨hne, rfl⟩⟩

/-- On every well-formed grid `solve` produces a result, and the result is the
one described by `SolveSpec`. -/
theorem solve_spec {G : Grid} (hG : WellFormed G) :
    ∃ res, solve G = some res ∧ SolveSpec G res := by
  apply solveFuel_spec _ G hG
  have := emptyCount_le G
  simp only [WIDTH]
  omega

/-! ## Solved grids -/

theorem eachOnce_of_injective (f : Nat → Int) (hb : ∀ j < 9, 1 ≤ f j ∧ f j ≤ 9)
    (hinj : ∀ j < 9, ∀ k < 9, j ≠ k → f j ≠ f k) : EachOnce f := by
  have himg : (Finset.range 9).image f = Finset.Icc 1 9 := by
    apply Finset.eq_of_subset_of_card_le
    · intro x hx
      obtain ⟨j, hj, rfl⟩ := Finset.mem_image.1 hx
      exact Finset.mem_Icc.2 (hb j (Finset.mem_range.1 hj))
    · rw [Finset.card_image_of_injOn]
      · simp
      · intro j hj k hk e
        by_contra hne
        exact hinj j (Finset.mem_range.1 hj) k (Finset.mem_range.1 hk) hne e
  intro d h1 h9
  have hd : d ∈ (Finset.range 9).image f := by
    rw [himg]; exact Finset.mem_Icc.2 ⟨h1, h9⟩
  obtain ⟨j, hj, rfl⟩ := Finset.mem_image.1 hd
  refine ⟨j, ⟨Finset.mem_range.1 hj, rfl⟩, ?_⟩
  rintro k ⟨hk, e⟩
  by_contra hne
  exact hinj k hk j (Finset.mem_range.1 hj) hne e

/-- A well-formed grid classified `SOLVED` has each digit exactly once in every
row, column and block. -/
theorem allComplete_of_solved {U : Grid} (hU : WellFormed U) (hs : validGrid U = some SOLVED) :
    AllComplete U := by
  have hnd : ¬HasDup U := not_hasDup_of_solved hU hs
  have hne : ¬HasEmpty U := by
    rcases validGrid_spec hU with ⟨_, q⟩ | ⟨_, _, q⟩ | ⟨_, h, _⟩
    · rw [q] at hs; exact absurd hs (by decide)
    · rw [q] at hs; exact absurd hs (by decide)
    · exact h
  have hcell : ∀ i < 9, ∀ j < 9, 1 ≤ cellAt U i j ∧ cellAt U i j ≤ 9 := by
    intro i hi j hj
    have hb := cellAt_bounds hU hi hj
    have hnz : cellAt U i j ≠ 0 := fun hz => hne ⟨i, hi, j, hj, hz⟩
    omega
  have hat : ∀ i < 9, ¬DupAt U i := fun i hi h => hnd ((hasDup_iff_dupAt U).2 ⟨i, hi, h⟩)
  intro i hi
  refine ⟨eachOnce_of_injective _ (fun j hj => hcell i hi j hj) ?_,
    eachOnce_of_injective _ (fun j hj => hcell j hj i hi) ?_,
    eachOnce_of_injective _ (fun j hj => hcell _ (by omega) _ (by omega)) ?_⟩
  · intro j hj k hk hjk he
    exact hat i hi (Or.inl ⟨j, hj, k, hk, hjk, by have := hcell i hi j hj; omega, he⟩)
  · intro j hj k hk hjk he
    exact hat i hi (Or.inr (Or.inl ⟨j, hj, k, hk, hjk, by have := hcell j hj i hi; omega, he⟩))
  · intro j hj k hk hjk he
    refine hat i hi (Or.inr (Or.inr ⟨j, hj, k, hk, hjk, ?_, he⟩))
    have := hcell (i / 3 * 3 + j / 3) (by omega) (i % 3 * 3 + j % 3) (by omega)
    unfold blockCell
    omega

/-! ## Results of `solve` on well-formed grids -/

theorem solve_returns {G S : Grid} (hG : WellFormed G) (h : solve G = some (some S)) :
    (HasEmpty G ∧ Completion G S) ∨ (¬HasEmpty G ∧ S = G) := by
  obtain ⟨res, hq, hspec⟩ := solve_spec hG
  rw [hq] at h
  cases h
  exact hspec

theorem solve_null {G : Grid} (hG : WellFormed G) (h : solve G = some none) :
    HasEmpty G ∧ ∀ T, ¬Completion G T := by
  obtain ⟨res, hq, hspec⟩ := solve_spec hG
  rw [hq] at h
  cases h
  exact hspec

theorem solve_full {G : Grid} (hG : WellFormed G) (hne : ¬HasEmpty G) :
    solve G = some (some G) := by
  obtain ⟨res, hq, hspec⟩ := solve_spec hG
  cases res with
  | none => exact absurd hspec.1 hne
  | some S =>
    rcases hspec with ⟨hE, _⟩ | ⟨_, rfl⟩
    · exact absurd hE hne
    · exact hq

theorem solve_result_full {G S : Grid} (hG : WellFormed G) (h : solve G = some (some S)) :
    WellFormed S ∧ ¬HasEmpty S := by
  rcases solve_returns hG h with ⟨_, hc⟩ | ⟨hne, rfl⟩
  · exact ⟨hc.1, hc.2.1⟩
  · exact ⟨hG, hne⟩

theorem hasDup_of_invalid {G : Grid} (hG : WellFormed G) (h : validGrid G = some INVALID) :
    HasDup G := by
  rcases validGrid_spec hG with ⟨hd, _⟩ | ⟨_, _, q⟩ | ⟨_, _, q⟩
  · exact hd
  · rw [q] at h; exact absurd h (by decide)
  · rw [q] at h; exact absurd h (by decide)

/-! # The claims of the specification -/

set_option maxRecDepth 100000

/-- C1: on every well-formed grid, `validGrid` returns `INVALID` if and only if
some row, some column or some 3x3 block holds the same non-zero digit in two
different cells. -/
theorem validGrid_invalid_iff (G : Grid) (hG : WellFormed G) :
    validGrid G = some INVALID ↔ HasDup G :=
  ⟨hasDup_of_invalid hG, validGrid_invalid_of_hasDup hG⟩

/-- C1 at the grid with two 5s in row 0. -/
theorem validGrid_invalid_iff_witness :
    WellFormed twoFives ∧ (validGrid twoFives = some INVALID ↔ HasDup twoFives) :=
  ⟨by decide, validGrid_invalid_iff twoFives (by decide)⟩

/-- C2 fails on the code: on the well-formed grid `fullClash`, which has no
empty cell and holds 7 twice in its last row, `solve` returns the grid itself,
and `validGrid` classifies that grid `INVALID`, not `SOLVED`. -/
theorem solve_returns_unsolved_grid :
    WellFormed fullClash ∧ solve fullClash = some (some fullClash) ∧
      validGrid fullClash = some INVALID ∧ validGrid fullClash ≠ some SOLVED := by
  decide

/-- C3: if a well-formed grid has a Solved completion, `solve` returns a grid
rather than `NULL`. -/
theorem solve_complete (G : Grid) (hG : WellFormed G) (h : ∃ T, Completion G T) :
    ∃ S, solve G = some (some S) := by
  obtain ⟨T, hT⟩ := h
  obtain ⟨res, hq, hspec⟩ := solve_spec hG
  cases res with
  | some S => exact ⟨S, hq⟩
  | none => exact absurd hT (hspec.2 T)

/-- C3 at the all-empty grid of 81 zeros. -/
theorem solve_complete_witness :
    WellFormed emptyGrid ∧ (∃ T, Completion emptyGrid T) ∧
      ∃ S, solve emptyGrid = some (some S) :=
  ⟨by decide, ⟨shiftedGrid, by decide⟩,
    solve_complete emptyGrid (by decide) ⟨shiftedGrid, by decide⟩⟩

/-- C4: on a well-formed grid with exactly one Solved completion `U`, `solve`
returns `U`, and every row, column and block of `U` contains each digit of
`1 .. 9` exactly once. -/
theorem solve_unique_completion (G : Grid) (hG : WellFormed G) (U : Grid)
    (hU : Completion G U) (huniq : ∀ T, Completion G T → T = U) :
    solve G = some (some U) ∧ AllComplete U := by
  refine ⟨?_, allComplete_of_solved hU.1 hU.2.2.1⟩
  obtain ⟨res, hq, hspec⟩ := solve_spec hG
  cases res with
  | none => exact absurd hU (hspec.2 U)
  | some S =>
    rcases hspec with ⟨_, hc⟩ | ⟨hne, rfl⟩
    · rw [hq, huniq S hc]
    · have hUS : U = S := by
        apply grid_ext hU.1 hG
        intro i hi j hj
        exact hU.2.2.2 i hi j hj (fun hz => hne ⟨i, hi, j, hj, hz⟩)
      rw [hq, hUS]

/-- C4 at the grid `oneHole`, whose only Solved completion is `solvedGrid`: the
eight filled cells of the last row leave only the digit 9 for the empty
cell. -/
theorem solve_unique_completion_witness :
    WellFormed oneHole ∧ Completion oneHole solvedGrid ∧
      (∀ T, Completion oneHole T → T = solvedGrid) ∧
      solve oneHole = some (some solvedGrid) ∧ AllComplete solvedGrid :=
  have huniq : ∀ T, Completion oneHole T → T = solvedGrid := by
    rintro T ⟨hWF, hne, hs, ha⟩
    have hnd := not_hasDup_of_solved hWF hs
    apply grid_ext hWF (by decide)
    intro i hi j hj
    by_cases h : i = 8 ∧ j = 8
    · obtain ⟨rfl, rfl⟩ := h
      have hb := cellAt_bounds hWF hi hj
      have hnz : cellAt T 8 8 ≠ 0 := fun hz => hne ⟨8, hi, 8, hj, hz⟩
      have hk : ∀ k < 8, cellAt T 8 8 ≠ cellAt oneHole 8 k := by
        intro k hk heq
        have hkz : cellAt oneHole 8 k ≠ 0 := by interval_cases k <;> decide
        have e := ha 8 hi k (by omega) hkz
        exact hnd (Or.inl ⟨8, hi, 8, hj, k, by omega, by omega, hnz, by rw [e]; exact heq⟩)
      have h0 : cellAt T 8 8 ≠ 3 := hk 0 (by decide)
      have h1 : cellAt T 8 8 ≠ 4 := hk 1 (by decide)
      have h2 : cellAt T 8 8 ≠ 5 := hk 2 (by decide)
      have h3 : cellAt T 8 8 ≠ 2 := hk 3 (by decide)
      have h4 : cellAt T 8 8 ≠ 8 := hk 4 (by decide)
      have h5 : cellAt T 8 8 ≠ 6 := hk 5 (by decide)
      have h6 : cellAt T 8 8 ≠ 1 := hk 6 (by decide)
      have h7 : cellAt T 8 8 ≠ 7 := hk 7 (by decide)
      show cellAt T 8 8 = 9
      omega
    · have hz : ∀ i < 9, ∀ j < 9, ¬(i = 8 ∧ j = 8) →
          cellAt oneHole i j ≠ 0 ∧ cellAt oneHole i j = cellAt solvedGrid i j := by decide
      rw [ha i hi j hj (hz i hi j hj h).1]
      exact (hz i hi j hj h).2
  ⟨by decide, by decide, huniq,
    solve_unique_completion oneHole (by decide) solvedGrid (by decide) huniq⟩

/-- C5: a grid returned by `solve` on a well-formed grid equals the input on
every cell that was filled in the input. -/
theorem solve_keeps_filled_cells (G : Grid) (hG : WellFormed G) (S : Grid)
    (h : solve G = some (some S)) :
    ∀ i < 9, ∀ j < 9, cellAt G i j ≠ 0 → cellAt S i j = cellAt G i j := by
  rcases solve_returns hG h with ⟨_, hc⟩ | ⟨_, rfl⟩
  · exact hc.2.2.2
  · exact agrees_refl S

/-- C5 at a grid with two empty cells. -/
theorem solve_keeps_filled_cells_witness :
    WellFormed twoHoles ∧ solve twoHoles = some (some solvedGrid) ∧
      ∀ i < 9, ∀ j < 9, cellAt twoHoles i j ≠ 0 →
        cellAt solvedGrid i j = cellAt twoHoles i j :=
  ⟨by decide, by decide,
    solve_keeps_filled_cells twoHoles (by decide) solvedGrid (by decide)⟩

/-- C6: on a well-formed grid with an empty cell that `validGrid` classifies
`INVALID`, `solve` returns `NULL`: the scan reaches `found` at a cell `(r, c)`,
and every one of the nine candidates written there gives a grid classified
`INVALID`. -/
theorem solve_invalid_null (G : Grid) (hG : WellFormed G) (hE : HasEmpty G)
    (hI : validGrid G = some INVALID) :
    solve G = some none ∧
      ∃ r c, findEmpty G = some (some (r, c)) ∧
        ∀ d ∈ candidates, ∃ W, writeCell G r c d = some W ∧ validGrid W = some INVALID := by
  have hd : HasDup G := hasDup_of_invalid hG hI
  constructor
  · obtain ⟨res, hq, hspec⟩ := solve_spec hG
    cases res with
    | none => exact hq
    | some S =>
      rcases hspec with ⟨_, hc⟩ | ⟨hne, _⟩
      · exact absurd hc (no_completion_of_hasDup hd)
      · exact absurd hE hne
  · rcases findEmpty_spec hG with ⟨r, hr, c, hc, hz, q⟩ | ⟨hne, _⟩
    · refine ⟨r, c, q, ?_⟩
      intro d hmem
      have hb := mem_candidates.1 hmem
      obtain ⟨W, hw, hwf, hcell⟩ := writeCell_spec hG hr hc d
      refine ⟨W, hw, validGrid_invalid_of_hasDup (hwf (by omega) hb.2) ?_⟩
      apply hasDup_of_agrees _ hd
      intro i _ j _ hnz
      rw [hcell]
      by_cases h : i = r ∧ j = c
      · rw [h.1, h.2] at hnz; exact absurd hz hnz
      · rw [if_neg h]
    · exact absurd hE hne

/-- C6 at the grid with two 5s in row 0 and every other cell empty. -/
theorem solve_invalid_null_witness :
    WellFormed twoFives ∧ HasEmpty twoFives ∧ validGrid twoFives = some INVALID ∧
      solve twoFives = some none :=
  ⟨by decide, by decide, by decide,
    (solve_invalid_null twoFives (by decide) (by decide) (by decide)).1⟩

/-- C7: on a well-formed grid without an empty cell, `solve` returns the grid
itself, whatever `validGrid` says of it. -/
theorem solve_full_returns_input (G : Grid) (hG : WellFormed G) (hne : ¬HasEmpty G) :
    solve G = some (some G) :=
  solve_full hG hne

/-- C7 at a grid without an empty cell that is classified `INVALID`. -/
theorem solve_full_returns_input_witness :
    WellFormed allOnes ∧ ¬HasEmpty allOnes ∧ validGrid allOnes = some INVALID ∧
      solve allOnes = some (some allOnes) :=
  ⟨by decide, by decide, by decide, solve_full_returns_input allOnes (by decide) (by decide)⟩

/-- C8: a well-formed grid without a repeated non-zero digit in any row, column
or block and without an empty cell is classified `SOLVED`. -/
theorem validGrid_solved (G : Grid) (hG : WellFormed G) (hnd : ¬HasDup G)
    (hne : ¬HasEmpty G) : validGrid G = some SOLVED := by
  rcases validGrid_spec hG with ⟨hd, _⟩ | ⟨_, he, _⟩ | ⟨_, _, q⟩
  · exact absurd hd hnd
  · exact absurd he hne
  · exact q

/-- C8 at a Solved grid. -/
theorem validGrid_solved_witness :
    WellFormed solvedGrid ∧ ¬HasDup solvedGrid ∧ ¬HasEmpty solvedGrid ∧
      validGrid solvedGrid = some SOLVED :=
  ⟨by decide, by decide, by decide,
    validGrid_solved solvedGrid (by decide) (by decide) (by decide)⟩

/-- C9: a well-formed grid without a repeated non-zero digit in any row, column
or block and with at least one empty cell is classified `SOLVABLE`. -/
theorem validGrid_solvable (G : Grid) (hG : WellFormed G) (hnd : ¬HasDup G)
    (he : HasEmpty G) : validGrid G = some SOLVABLE := by
  rcases validGrid_spec hG with ⟨hd, _⟩ | ⟨_, _, q⟩ | ⟨_, hne, _⟩
  · exact absurd hd hnd
  · exact q
  · exact absurd he hne

/-- C9 at the standard "easy" puzzle. -/
theorem validGrid_solvable_witness :
    WellFormed easyGrid ∧ ¬HasDup easyGrid ∧ HasEmpty easyGrid ∧
      validGrid easyGrid = some SOLVABLE :=
  ⟨by decide, by decide, by decide,
    validGrid_solvable easyGrid (by decide) (by decide) (by decide)⟩

/-- C10: running `solve` again on a grid it returned gives that same grid. -/
theorem solve_idempotent (G : Grid) (hG : WellFormed G) (S : Grid)
    (h : solve G = some (some S)) : solve S = some (some S) := by
  obtain ⟨hS, hne⟩ := solve_result_full hG h
  exact solve_full hS hne

/-- C10 at a grid with one empty cell. -/
theorem solve_idempotent_witness :
    WellFormed oneHole ∧ solve oneHole = some (some solvedGrid) ∧
      solve solvedGrid = some (some solvedGrid) :=
  ⟨by decide, by decide, solve_idempotent oneHole (by decide) solvedGrid (by decide)⟩

/-! ## The block check of `validGrid` -/

/-- The block check in the body of the inner loop reads the cell at
`blockIndex i j`. -/
theorem body_reads_blockIndex (grid : Grid) (i j : Nat) (st : Seen) :
    body grid i j st =
      match readCell grid i j with
      | none => .fault
      | some v =>
        (check st.checkedRow (readCell grid i j)).bind fun row =>
        (check st.checkedCol (readCell grid j i)).bind fun col =>
        (check st.checkedBlock
            (readCell grid (blockIndex i j).1 (blockIndex i j).2)).bind fun block =>
        .next ⟨if v = 0 then SOLVABLE else st.status, row, col, block⟩ := rfl

theorem blockCell_eq (G : Grid) (i j : Nat) :
    blockCell G i j = cellAt G (blockIndex i j).1 (blockIndex i j).2 := rfl

theorem validGrid_status {G : Grid} (hG : WellFormed G) :
    validGrid G = some INVALID ∨ validGrid G = some SOLVABLE ∨ validGrid G = some SOLVED := by
  rcases validGrid_spec hG with ⟨_, q⟩ | ⟨_, _, q⟩ | ⟨_, _, q⟩
  · exact Or.inl q
  · exact Or.inr (Or.inl q)
  · exact Or.inr (Or.inr q)

/-! ## The budget of the recursion -/

theorem tryDigits_mono {self1 self2 : Grid → Option (Option Grid)}
    (hself : ∀ W res, self1 W = some res → self2 W = some res) (r c : Nat) :
    ∀ (ds : List Int) (W : Grid) (res : Option Grid),
      tryDigits self1 r c ds W = some res → tryDigits self2 r c ds W = some res := by
  intro ds
  induction ds with
  | nil => intro W res h; exact h
  | cons d ds ih =>
    intro W res h
    simp only [tryDigits] at h ⊢
    cases hw : writeCell W r c d with
    | none => rw [hw] at h; exact absurd h (by simp)
    | some W' =>
      rw [hw] at h
      simp only at h ⊢
      cases hv : validGrid W' with
      | none => rw [hv] at h; exact absurd h (by simp)
      | some status =>
        rw [hv] at h
        simp only at h ⊢
        by_cases h1 : status = SOLVED
        · simpa [h1] using h
        · by_cases h2 : status = SOLVABLE
          · subst h2
            have e : ¬ SOLVABLE = SOLVED := by decide
            simp only [e, if_false, if_true] at h ⊢
            cases hs : self1 W' with
            | none => rw [hs] at h; exact absurd h (by simp)
            | some lf =>
              rw [hs] at h
              rw [hself W' lf hs]
              cases lf with
              | none => exact ih W' res h
              | some leaf => exact h
          · simp only [h1, h2, if_false] at h ⊢
            exact ih W' res h

/-- A result reached within a budget is reached within every larger budget. -/
theorem solveFuel_mono : ∀ (n : Nat) (G : Grid) (res : Option Grid),
    solveFuel n G = some res → solveFuel (n + 1) G = some res := by
  intro n
  induction n with
  | zero => intro G res h; exact absurd h (by simp [solveFuel])
  | succ n ih =>
    intro G res h
    rw [solveFuel] at h ⊢
    cases hc : copyGrid G with
    | none => rw [hc] at h; exact absurd h (by simp)
    | some nextIter =>
      rw [hc] at h
      simp only at h ⊢
      cases hf : findEmpty G with
      | none => rw [hf] at h; exact absurd h (by simp)
      | some p =>
        rw [hf] at h
        cases p with
        | none => exact h
        | some rc =>
          obtain ⟨r, c⟩ := rc
          simp only at h ⊢
          exact tryDigits_mono ih r c candidates nextIter res h

theorem solveFuel_mono_le {n m : Nat} (hnm : n ≤ m) {G : Grid} {res : Option Grid}
    (h : solveFuel n G = some res) : solveFuel m G = some res := by
  induction hnm with
  | refl => exact h
  | step _ ih => exact solveFuel_mono _ G res ih

/-! ## The recursive calls of `solve` -/

theorem emptyCount_succ {G W : Grid} {r c : Nat} {d : Int} (hr : r < 9) (hc : c < 9)
    (hz : cellAt G r c = 0) (hd : d ≠ 0)
    (hW : ∀ i j, cellAt W i j = if i = r ∧ j = c then d else cellAt G i j) :
    emptyCount W + 1 = emptyCount G := by
  have hnot : (r, c) ∉ emptyCells W := by simp [emptyCells, hW, hd]
  have hins : emptyCells G = insert (r, c) (emptyCells W) := by
    ext p
    obtain ⟨i, j⟩ := p
    simp only [emptyCells, Finset.mem_insert, Finset.mem_filter, Finset.mem_product,
      Finset.mem_range, Prod.mk.injEq, hW]
    by_cases h : i = r ∧ j = c
    · obtain ⟨rfl, rfl⟩ := h
      simp [hr, hc, hz]
    · simp [h]
  unfold emptyCount
  rw [hins, Finset.card_insert_of_not_mem hnot]

theorem writeCell_again {G W : Grid} (hG : WellFormed G) (hW : WellFormed W) {r c : Nat}
    (hr : r < 9) (hc : c < 9)
    (hoff : ∀ i j, ¬(i = r ∧ j = c) → cellAt W i j = cellAt G i j) {d : Int}
    (hd0 : 0 ≤ d) (hd9 : d ≤ 9) : writeCell W r c d = writeCell G r c d := by
  obtain ⟨W1, hw1, hwf1, hcell1⟩ := writeCell_spec hW hr hc d
  obtain ⟨W2, hw2, hwf2, hcell2⟩ := writeCell_spec hG hr hc d
  rw [hw1, hw2]
  congr 1
  apply grid_ext (hwf1 hd0 hd9) (hwf2 hd0 hd9)
  intro i _ j _
  rw [hcell1, hcell2]
  by_cases h : i = r ∧ j = c
  · rw [if_pos h, if_pos h]
  · rw [if_neg h, if_neg h]; exact hoff i j h

/-- The candidate loop calls `solve` only on grids obtained from the argument
by writing a digit of `1 .. 9` into the cell found empty. -/
theorem tryDigits_congr {G : Grid} (hG : WellFormed G) {r c : Nat} (hr : r < 9) (hc : c < 9)
    {self1 self2 : Grid → Option (Option Grid)}
    (hself : ∀ (d : Int) (W : Grid), 1 ≤ d → d ≤ 9 → writeCell G r c d = some W →
      self1 W = self2 W) :
    ∀ (ds : List Int), (∀ d ∈ ds, 1 ≤ d ∧ d ≤ 9) → ∀ W : Grid, WellFormed W →
      (∀ i j, ¬(i = r ∧ j = c) → cellAt W i j = cellAt G i j) →
      tryDigits self1 r c ds W = tryDigits self2 r c ds W := by
  intro ds
  induction ds with
  | nil => intro _ W _ _; rfl
  | cons d ds ih =>
    intro hds W hW hoff
    have hd := hds d (List.mem_cons_self _ _)
    have hds2 : ∀ x ∈ ds, 1 ≤ x ∧ x ≤ 9 := fun x hx => hds x (List.mem_cons_of_mem _ hx)
    obtain ⟨W', hw, hwf, hcell⟩ := writeCell_spec hW hr hc d
    have hW' : WellFormed W' := hwf (by omega) hd.2
    have hoff' : ∀ i j, ¬(i = r ∧ j = c) → cellAt W' i j = cellAt G i j := by
      intro i j h
      rw [hcell, if_neg h]
      exact hoff i j h
    have hwG : writeCell G r c d = some W' := by
      rw [← writeCell_again hG hW hr hc hoff (by omega) hd.2]; exact hw
    have hrec := ih hds2 W' hW' hoff'
    simp only [tryDigits, hw, hself d W' hd.1 hd.2 hwG, hrec]

theorem scanRow_first {G : Grid} (hG : WellFormed G) {i : Nat} (hi : i < 9) :
    ∀ (s n : Nat), s + n ≤ 9 → ∀ c, scanRow G i (List.range' s n) = some (some (i, c)) →
      ∀ j, s ≤ j → j < c → cellAt G i j ≠ 0 := by
  intro s n
  induction n generalizing s with
  | zero => intro _ c h; simp [List.range', scanRow] at h
  | succ n ih =>
    intro hsn c h j hsj hjc
    have hs : s < 9 := by omega
    simp only [List.range', scanRow, readCell_eq hG hi hs] at h
    by_cases hz : cellAt G i s = 0
    · simp only [hz, if_true, Option.some.injEq, Prod.mk.injEq] at h
      omega
    · simp only [hz, if_false] at h
      by_cases hjs : j = s
      · rw [hjs]; exact hz
      · exact ih (s + 1) (by omega) c h j (by omega) hjc

theorem scanRow_row {G : Grid} (i : Nat) :
    ∀ (js : List Nat) (p : Nat × Nat), scanRow G i js = some (some p) → p.1 = i := by
  intro js
  induction js with
  | nil => intro p h; simp [scanRow] at h
  | cons j js ih =>
    intro p h
    simp only [scanRow] at h
    cases hr : readCell G i j with
    | none => rw [hr] at h; exact absurd h (by simp)
    | some v =>
      rw [hr] at h
      simp only at h
      by_cases hz : v = 0
      · simp only [hz, if_true, Option.some.injEq] at h
        rw [← h]
      · simp only [hz, if_false] at h
        exact ih p h

theorem scanRows_first {G : Grid} (hG : WellFormed G) :
    ∀ (s n : Nat), s + n ≤ 9 → ∀ r c, scanRows G (List.range' s n) = some (some (r, c)) →
      ∀ i < 9, ∀ j < 9, s ≤ i → (i < r ∨ (i = r ∧ j < c)) → cellAt G i j ≠ 0 := by
  intro s n
  induction n generalizing s with
  | zero => intro _ r c h; simp [List.range', scanRows] at h
  | succ n ih =>
    intro hsn r c h i hi j hj hsi hlt
    have hs : s < 9 := by omega
    have hrange : ∀ x ∈ List.range WIDTH, x < 9 := fun x hx => by simpa [WIDTH] using hx
    simp only [List.range', scanRows] at h
    rcases scanRow_spec hG hs _ hrange with ⟨k, hk, hkz, q⟩ | ⟨hall, q⟩
    · rw [q] at h
      simp only [Option.some.injEq, Prod.mk.injEq] at h
      obtain ⟨rfl, rfl⟩ := h
      have hq : scanRow G s (List.range' 0 9) = some (some (s, k)) := by
        rw [← List.range_eq_range']; exact q
      rcases hlt with h1 | ⟨h1, h2⟩
      · omega
      · subst h1
        exact scanRow_first hG hi 0 9 (by omega) k hq j (by omega) h2
    · rw [q] at h
      simp only at h
      by_cases his : i = s
      · subst his
        exact hall j (by simpa [WIDTH] using hj)
      · exact ih (s + 1) (by omega) r c h i hi j hj (by omega) hlt

/-- The cell found by the scan of `solve` is the first empty cell in row-major
order. -/
theorem findEmpty_first {G : Grid} (hG : WellFormed G) {r c : Nat}
    (h : findEmpty G = some (some (r, c))) :
    r < 9 ∧ c < 9 ∧ cellAt G r c = 0 ∧
      ∀ i < 9, ∀ j < 9, (i < r ∨ (i = r ∧ j < c)) → cellAt G i j ≠ 0 := by
  have hfirst : ∀ i < 9, ∀ j < 9, (i < r ∨ (i = r ∧ j < c)) → cellAt G i j ≠ 0 := by
    intro i hi j hj hlt
    have h2 : scanRows G (List.range' 0 9) = some (some (r, c)) := by
      rw [← List.range_eq_range']; exact h
    exact scanRows_first hG 0 9 (by omega) r c h2 i hi j hj (by omega) hlt
  rcases findEmpty_spec hG with ⟨r2, hr2, c2, hc2, hz, q⟩ | ⟨_, q⟩
  · rw [q] at h
    simp only [Option.some.injEq, Prod.mk.injEq] at h
    obtain ⟨rfl, rfl⟩ := h
    exact ⟨hr2, hc2, hz, hfirst⟩
  · rw [q] at h
    exact absurd h (by simp)

/-! ## The first solution found is the least one -/

theorem candidates_sorted : candidates.Pairwise (· < ·) := by
  decide

theorem tryDigits_least {n : Nat}
    (ih : ∀ H, WellFormed H → emptyCount H < n → ∀ S, solveFuel n H = some (some S) →
      HasEmpty H → ∀ T, Completion H T → LexLE S T)
    {G : Grid} {r c : Nat} (hr : r < 9) (hc : c < 9) (hz : cellAt G r c = 0)
    (hfirst : ∀ i < 9, ∀ j < 9, (i < r ∨ (i = r ∧ j < c)) → cellAt G i j ≠ 0)
    (hcount : emptyCount G < n + 1) :
    ∀ ds : List Int, ds.Pairwise (· < ·) → (∀ d ∈ ds, 1 ≤ d ∧ d ≤ 9) → ∀ W, WellFormed W →
      (∀ i j, ¬(i = r ∧ j = c) → cellAt W i j = cellAt G i j) →
      (∀ T, Completion G T → cellAt T r c ∈ ds) →
      ∀ S, tryDigits (solveFuel n) r c ds W = some (some S) →
        ∀ T, Completion G T → LexLE S T := by
  intro ds
  induction ds with
  | nil =>
    intro _ _ W _ _ _ S h
    simp [tryDigits] at h
  | cons d ds ihd =>
    intro hsorted hds W hWF hoff hlow S h T hT
    have hd := hds d (List.mem_cons_self _ _)
    have hds2 : ∀ x ∈ ds, 1 ≤ x ∧ x ≤ 9 := fun x hx => hds x (List.mem_cons_of_mem _ hx)
    obtain ⟨hdlt, hsorted2⟩ := List.pairwise_cons.1 hsorted
    obtain ⟨W', hw, hwf, hcell⟩ := writeCell_spec hWF hr hc d
    have hWF' : WellFormed W' := hwf (by omega) hd.2
    have hcell' : ∀ i j, cellAt W' i j = if i = r ∧ j = c then d else cellAt G i j := by
      intro i j
      rw [hcell]
      by_cases h : i = r ∧ j = c
      · simp [h]
      · rw [if_neg h, if_neg h]; exact hoff i j h
    have hoff' : ∀ i j, ¬(i = r ∧ j = c) → cellAt W' i j = cellAt G i j := by
      intro i j h
      rw [hcell', if_neg h]
    have hrc : cellAt W' r c = d := by rw [hcell']; simp
    have hskip : (∀ T, ¬Completion W' T) → ∀ T, Completion G T → cellAt T r c ∈ ds := by
      intro hno T2 hT2
      rcases List.mem_cons.1 (hlow T2 hT2) with h | h
      · exact absurd (completion_step hcell' hT2 h) (hno T2)
      · exact h
    have hbefore : ∀ i2 < 9, ∀ j2 < 9, (i2 < r ∨ (i2 = r ∧ j2 < c)) →
        cellAt W' i2 j2 = cellAt T i2 j2 := by
      intro i2 hi2 j2 hj2 hlt
      have hne : ¬(i2 = r ∧ j2 = c) := by omega
      rw [hoff' i2 j2 hne]
      exact (hT.2.2.2 i2 hi2 j2 hj2 (hfirst i2 hi2 j2 hj2 hlt)).symm
    simp only [tryDigits, hw] at h
    rcases validGrid_spec hWF' with ⟨hdup, q⟩ | ⟨hnd, he, q⟩ | ⟨hnd, hne, q⟩
    · have e1 : ¬ INVALID = SOLVED := by decide
      have e2 : ¬ INVALID = SOLVABLE := by decide
      simp only [q, e1, e2, if_false] at h
      exact ihd hsorted2 hds2 W' hWF' hoff' (hskip fun _ => no_completion_of_hasDup hdup) S h
        T hT
    · have e1 : ¬ SOLVABLE = SOLVED := by decide
      simp only [q, e1, if_false, if_true] at h
      have hlt : emptyCount W' < n := by
        have := emptyCount_lt hr hc hz (by omega : d ≠ 0) hcell'
        omega
      obtain ⟨res', hq', hspec⟩ := solveFuel_spec n W' hWF' hlt
      rw [hq'] at h
      cases res' with
      | some leaf =>
        simp only [Option.some.injEq] at h
        subst h
        rcases List.mem_cons.1 (hlow T hT) with hTd | hTd
        · exact ih W' hWF' hlt leaf hq' he T (completion_step hcell' hT hTd)
        · rcases hspec with ⟨_, hcl⟩ | ⟨hne, _⟩
          · have hleaf : cellAt leaf r c = d := by
              rw [hcl.2.2.2 r hr c hc (by rw [hrc]; omega), hrc]
            refine Or.inr ⟨r, hr, c, hc, by rw [hleaf]; exact hdlt _ hTd, ?_⟩
            intro i2 hi2 j2 hj2 hlt2
            have hne : ¬(i2 = r ∧ j2 = c) := by omega
            have hnz : cellAt W' i2 j2 ≠ 0 := by
              rw [hoff' i2 j2 hne]; exact hfirst i2 hi2 j2 hj2 hlt2
            rw [hcl.2.2.2 i2 hi2 j2 hj2 hnz]
            exact hbefore i2 hi2 j2 hj2 hlt2
          · exact absurd he hne
      | none =>
        simp only at h
        exact ihd hsorted2 hds2 W' hWF' hoff' (hskip hspec.2) S h T hT
    · simp only [q, if_true, Option.some.injEq] at h
      subst h
      have hothers : ∀ i < 9, ∀ j < 9, ¬(i = r ∧ j = c) → cellAt W' i j = cellAt T i j := by
        intro i hi j hj hne2
        have hnz : cellAt G i j ≠ 0 := by
          rw [← hoff' i j hne2]
          exact fun hz2 => hne ⟨i, hi, j, hj, hz2⟩
        rw [hoff' i j hne2]
        exact (hT.2.2.2 i hi j hj hnz).symm
      rcases List.mem_cons.1 (hlow T hT) with hTd | hTd
      · left
        intro i hi j hj
        by_cases hrc2 : i = r ∧ j = c
        · obtain ⟨rfl, rfl⟩ := hrc2
          rw [hrc, hTd]
        · exact hothers i hi j hj hrc2
      · refine Or.inr ⟨r, hr, c, hc, by rw [hrc]; exact hdlt _ hTd, ?_⟩
        intro i2 hi2 j2 hj2 hlt2
        exact hothers i2 hi2 j2 hj2 (by omega)

theorem solveFuel_least : ∀ (n : Nat) (G : Grid), WellFormed G → emptyCount G < n →
    ∀ S, solveFuel n G = some (some S) → HasEmpty G →
      ∀ T, Completion G T → LexLE S T := by
  intro n
  induction n with
  | zero => intro G _ h; exact absurd h (Nat.not_lt_zero _)
  | succ n ih =>
    intro G hG hcount S h hE T hT
    simp only [solveFuel, copyGrid_eq hG] at h
    rcases findEmpty_spec hG with ⟨r, hr, c, hc, hz, q⟩ | ⟨hne, _⟩
    · obtain ⟨_, _, _, hfirst⟩ := findEmpty_first hG q
      simp only [q] at h
      exact tryDigits_least ih hr hc hz hfirst hcount candidates candidates_sorted
        (fun d hd => mem_candidates.1 hd) G hG (fun _ _ _ => rfl)
        (fun T2 hT2 => mem_candidates.2 (completion_cell_bounds hT2 hr hc)) S h T hT
    · exact absurd hE hne

/-! ## What one pass of the inner loop of `validGrid` does -/

theorem dupAt_iff {G : Grid} {i : Nat} (hi : i < 9) :
    DupAt G i ↔ RowDupAt G i ∨ ColDupAt G i ∨ BlockDupAt G i := by
  constructor
  · rintro (h | h | ⟨j, hj, k, hk, hjk, hz, he⟩)
    · exact Or.inl h
    · exact Or.inr (Or.inl h)
    · exact Or.inr (Or.inr ⟨i / 3 * 3 + j / 3, by omega, i % 3 * 3 + j % 3, by omega,
        i / 3 * 3 + k / 3, by omega, i % 3 * 3 + k % 3, by omega, by omega, by omega, by omega,
        by omega, by omega, hz, he⟩)
  · rintro (h | h | ⟨r, hr, c, hc, r2, hr2, c2, hc2, hne, h1, h2, h3, h4, hz, he⟩)
    · exact Or.inl h
    · exact Or.inr (Or.inl h)
    · refine Or.inr (Or.inr ⟨r % 3 * 3 + c % 3, by omega, r2 % 3 * 3 + c2 % 3, by omega,
        by omega, ?_, ?_⟩)
      · have e1 : i / 3 * 3 + (r % 3 * 3 + c % 3) / 3 = r := by omega
        have e2 : i % 3 * 3 + (r % 3 * 3 + c % 3) % 3 = c := by omega
        simp only [blockCell, e1, e2]
        exact hz
      · have e1 : i / 3 * 3 + (r % 3 * 3 + c % 3) / 3 = r := by omega
        have e2 : i % 3 * 3 + (r % 3 * 3 + c % 3) % 3 = c := by omega
        have e3 : i / 3 * 3 + (r2 % 3 * 3 + c2 % 3) / 3 = r2 := by omega
        have e4 : i % 3 * 3 + (r2 % 3 * 3 + c2 % 3) % 3 = c2 := by omega
        simp only [blockCell, e1, e2, e3, e4]
        exact he

theorem marks_congr {a : List Int} {P Q : Int → Prop} (h : Marks a P)
    (hPQ : ∀ k : Nat, k < 9 → (P ((k : Int) + 1) ↔ Q ((k : Int) + 1))) : Marks a Q :=
  ⟨h.1, fun k hk => (h.2 k hk).trans (hPQ k hk)⟩

theorem marks_step {a : List Int} {P : Int → Prop} (f : Nat → Int) {j : Nat} {js : List Nat}
    (h : Marks a (fun d => (P d ∨ (f j ≠ 0 ∧ d = f j)) ∨ ∃ x ∈ js, f x ≠ 0 ∧ d = f x)) :
    Marks a (fun d => P d ∨ ∃ x ∈ j :: js, f x ≠ 0 ∧ d = f x) := by
  refine ⟨h.1, fun k hk => (h.2 k hk).trans ?_⟩
  constructor
  · rintro ((hp | ⟨hv, e⟩) | ⟨x, hx, hne, e⟩)
    · exact Or.inl hp
    · exact Or.inr ⟨j, List.mem_cons_self _ _, hv, e⟩
    · exact Or.inr ⟨x, List.mem_cons_of_mem _ hx, hne, e⟩
  · rintro (hp | ⟨x, hx, hne, e⟩)
    · exact Or.inl (Or.inl hp)
    · rcases List.mem_cons.1 hx with hxj | hx2
      · subst hxj
        exact Or.inl (Or.inr ⟨hne, e⟩)
      · exact Or.inr ⟨x, hx2, hne, e⟩

/-- When the inner loop runs through, the three seen-arrays mark the digits
they marked before and the digits of the cells checked. -/
theorem innerLoop_marks {G : Grid} (hG : WellFormed G) {i : Nat} (hi : i < 9) :
    ∀ (js : List Nat), (∀ j ∈ js, j < 9) → ∀ (st st' : Seen) (Pr Pc Pb : Int → Prop),
      Marks st.checkedRow Pr → Marks st.checkedCol Pc → Marks st.checkedBlock Pb →
      innerLoop G i js st = .next st' →
      Marks st'.checkedRow (fun d => Pr d ∨ ∃ j ∈ js, cellAt G i j ≠ 0 ∧ d = cellAt G i j) ∧
      Marks st'.checkedCol (fun d => Pc d ∨ ∃ j ∈ js, cellAt G j i ≠ 0 ∧ d = cellAt G j i) ∧
      Marks st'.checkedBlock
        (fun d => Pb d ∨ ∃ j ∈ js, blockCell G i j ≠ 0 ∧ d = blockCell G i j) := by
  intro js
  induction js with
  | nil =>
    intro _ st st' Pr Pc Pb hr hc hb h
    simp only [innerLoop, Flow.next.injEq] at h
    subst h
    exact ⟨marks_congr hr (fun _ _ => by simp), marks_congr hc (fun _ _ => by simp),
      marks_congr hb (fun _ _ => by simp)⟩
  | cons j js ih =>
    intro hjs st st' Pr Pc Pb hr hc hb h
    have hj : j < 9 := hjs j (List.mem_cons_self _ _)
    have hjs2 : ∀ x ∈ js, x < 9 := fun x hx => hjs x (List.mem_cons_of_mem _ hx)
    simp only [innerLoop] at h
    rcases body_spec hG hi hj st hr hc hb with ⟨_, q⟩ | ⟨_, st1, q, _, m1, m2, m3⟩
    · rw [q] at h
      simp [Flow.bind] at h
    · rw [q] at h
      simp only [Flow.bind] at h
      obtain ⟨k1, k2, k3⟩ := ih hjs2 st1 st' _ _ _ m1 m2 m3 h
      exact ⟨marks_step (cellAt G i) k1, marks_step (fun x => cellAt G x i) k2,
        marks_step (blockCell G i) k3⟩

/-- One pass of the inner loop of `validGrid` from fresh seen-arrays: it returns
`INVALID` exactly for a repeated digit at loop index `i`, and otherwise runs
through with the status and the seen-arrays of everything it checked. -/
theorem innerLoop_fresh {G : Grid} (hG : WellFormed G) {i : Nat} (hi : i < 9) (status : Int) :
    (DupAt G i ∧
      innerLoop G i (List.range WIDTH) ⟨status, zeros, zeros, zeros⟩ = .ret INVALID) ∨
    (¬DupAt G i ∧ ∃ st',
      innerLoop G i (List.range WIDTH) ⟨status, zeros, zeros, zeros⟩ = .next st' ∧
      (((∃ j < 9, cellAt G i j = 0) ∧ st'.status = SOLVABLE) ∨
        ((∀ j < 9, cellAt G i j ≠ 0) ∧ st'.status = status)) ∧
      Marks st'.checkedRow (fun d => ∃ j < 9, cellAt G i j = d) ∧
      Marks st'.checkedCol (fun d => ∃ j < 9, cellAt G j i = d) ∧
      Marks st'.checkedBlock
        (fun d => ∃ r < 9, ∃ c < 9, r / 3 = i / 3 ∧ c / 3 = i % 3 ∧ cellAt G r c = d)) := by
  have hrange : ∀ j ∈ List.range WIDTH, j < 9 := fun j hj => by simpa [WIDTH] using hj
  have hmem : ∀ j, j < 9 → j ∈ List.range WIDTH := fun j hj => by simpa [WIDTH] using hj
  have key := innerLoop_spec hG hi (List.range WIDTH) hrange ⟨status, zeros, zeros, zeros⟩
    _ _ _ marks_zeros marks_zeros marks_zeros
  rw [clash_range_iff, clash_range_iff, clash_range_iff] at key
  rcases key with ⟨h, q⟩ | ⟨h, st', q, hs⟩
  · exact Or.inl ⟨h, q⟩
  · right
    obtain ⟨k1, k2, k3⟩ := innerLoop_marks hG hi (List.range WIDTH) hrange
      ⟨status, zeros, zeros, zeros⟩ st' _ _ _ marks_zeros marks_zeros marks_zeros q
    refine ⟨h, st', q, ?_, marks_congr k1 ?_, marks_congr k2 ?_, marks_congr k3 ?_⟩
    · rcases hs with ⟨e, j, hj, hz⟩ | ⟨e, hall⟩
      · exact Or.inl ⟨⟨j, hrange j hj, hz⟩, e⟩
      · exact Or.inr ⟨fun j hj => hall j (hmem j hj), e⟩
    · intro k _
      constructor
      · rintro (hf | ⟨j, hj, _, e⟩)
        · exact absurd hf id
        · exact ⟨j, hrange j hj, e.symm⟩
      · rintro ⟨j, hj, e⟩
        exact Or.inr ⟨j, hmem j hj, by rw [e]; omega, e.symm⟩
    · intro k _
      constructor
      · rintro (hf | ⟨j, hj, _, e⟩)
        · exact absurd hf id
        · exact ⟨j, hrange j hj, e.symm⟩
      · rintro ⟨j, hj, e⟩
        exact Or.inr ⟨j, hmem j hj, by rw [e]; omega, e.symm⟩
    · intro k _
      constructor
      · rintro (hf | ⟨j, hj, _, e⟩)
        · exact absurd hf id
        · have hj9 := hrange j hj
          exact ⟨i / 3 * 3 + j / 3, by omega, i % 3 * 3 + j % 3, by omega, by omega, by omega,
            e.symm⟩
      · rintro ⟨r, hr, c, hc, h1, h2, e⟩
        refine Or.inr ⟨r % 3 * 3 + c % 3, hmem _ (by omega), ?_, ?_⟩
        · have e1 : i / 3 * 3 + (r % 3 * 3 + c % 3) / 3 = r := by omega
          have e2 : i % 3 * 3 + (r % 3 * 3 + c % 3) % 3 = c := by omega
          simp only [blockCell, e1, e2, e]
          omega
        · have e1 : i / 3 * 3 + (r % 3 * 3 + c % 3) / 3 = r := by omega
          have e2 : i % 3 * 3 + (r % 3 * 3 + c % 3) % 3 = c := by omega
          simp only [blockCell, e1, e2, e]

/-! # The claims of the specification, continued -/

/-- C11: on a well-formed grid `validGrid` makes no out-of-bounds access and
returns one of `INVALID`, `SOLVABLE`, `SOLVED`; the indices of the block check
lie in `0 .. 8` for all `i`, `j` in `0 .. 8`, every cell read succeeds, and the
seen-array index `value - 1` of a non-empty cell lies in `0 .. 8`. -/
theorem validGrid_total (G : Grid) (hG : WellFormed G) :
    (validGrid G = some INVALID ∨ validGrid G = some SOLVABLE ∨ validGrid G = some SOLVED) ∧
    (∀ i < 9, ∀ j < 9, (blockIndex i j).1 < 9 ∧ (blockIndex i j).2 < 9) ∧
    (∀ i < 9, ∀ j < 9, readCell G i j = some (cellAt G i j)) ∧
    (∀ i < 9, ∀ j < 9, cellAt G i j ≠ 0 →
      0 ≤ cellAt G i j - 1 ∧ cellAt G i j - 1 < 9 ∧
        readSeen zeros (cellAt G i j - 1) = some 0) := by
  refine ⟨validGrid_status hG, ?_, fun i hi j hj => readCell_eq hG hi hj, ?_⟩
  · intro i hi j hj
    simp only [blockIndex]
    omega
  · intro i hi j hj hnz
    have hb := cellAt_bounds hG hi hj
    refine ⟨by omega, by omega, ?_⟩
    obtain ⟨k, hk⟩ : ∃ k : Nat, cellAt G i j = (k : Int) + 1 :=
      ⟨(cellAt G i j - 1).toNat, by omega⟩
    rw [hk]
    have hk9 : k < 9 := by omega
    have hz : zeros[k]? = some 0 := by
      interval_cases k <;> simp [zeros, WIDTH]
    simp [readSeen, hz]

/-- C11 at the standard "easy" puzzle. -/
theorem validGrid_total_witness :
    WellFormed easyGrid ∧
      (validGrid easyGrid = some INVALID ∨ validGrid easyGrid = some SOLVABLE ∨
        validGrid easyGrid = some SOLVED) :=
  ⟨by decide, (validGrid_total easyGrid (by decide)).1⟩

/-- C14, as stated, fails at loop position `(1, 0)`: the block check reads the
cell `(0, 3)`, not the cell `(1, 0)`; its block column is `1`, not `0 / 3`, and
its row inside the block is `0`, not `1 % 3`. -/
theorem blockIndex_is_not_loop_position :
    blockIndex 1 0 = (0, 3) ∧
      blockIndex 1 0 ≠ (3 * (1 / 3) + 1 % 3, 3 * (0 / 3) + 0 % 3) ∧
      (blockIndex 1 0).2 / 3 ≠ 0 / 3 ∧ (blockIndex 1 0).1 % 3 ≠ 1 % 3 := by
  decide

/-- C14, amended: at loop position `(i, j)` the block check of `validGrid` reads
the cell in block row `i / 3` and block column `i % 3`, at row `j / 3` and
column `j % 3` inside that block, that is the grid cell at row
`3 * (i / 3) + j / 3` and column `3 * (i % 3) + j % 3`. -/
theorem blockIndex_coordinates (i j : Nat) (hi : i < 9) (hj : j < 9) :
    (blockIndex i j).1 < 9 ∧ (blockIndex i j).2 < 9 ∧
      (blockIndex i j).1 / 3 = i / 3 ∧ (blockIndex i j).2 / 3 = i % 3 ∧
      (blockIndex i j).1 % 3 = j / 3 ∧ (blockIndex i j).2 % 3 = j % 3 ∧
      blockIndex i j = (3 * (i / 3) + j / 3, 3 * (i % 3) + j % 3) := by
  simp only [blockIndex, Prod.mk.injEq]
  omega

/-- C14, amended, at loop position `(4, 2)`. -/
theorem blockIndex_coordinates_witness :
    4 < 9 ∧ 2 < 9 ∧ blockIndex 4 2 = (3, 5) ∧ (blockIndex 4 2).2 / 3 = 4 % 3 :=
  ⟨by decide, by decide, by decide,
    (blockIndex_coordinates 4 2 (by decide) (by decide)).2.2.2.1⟩

/-- C15: for an outer index `i` in `0 .. 8` and a well-formed grid, one pass of
the inner loop of `validGrid` over `j = 0 .. 8`, started as the outer loop
starts it with three fresh seen-arrays, returns `INVALID` exactly when row `i`,
column `i` or the block with block row `i / 3` and block column `i % 3` holds a
non-zero digit in two different cells; otherwise it runs through, and the
seen-array of the block check then marks exactly the digits of the nine cells
of that block (those of the row and column checks the digits of row `i` and of
column `i`).  The cell read at `j` is `blockIndex i j`, which runs over the
cells of that block, each for exactly one `j`; every block belongs to exactly
one `i`; and `validGrid` returns `INVALID` exactly when this happens for some
`i`. -/
theorem block_check_covers_block (i : Nat) (hi : i < 9) (G : Grid) (hG : WellFormed G)
    (status : Int) :
    (∀ j < 9, (blockIndex i j).1 < 9 ∧ (blockIndex i j).2 < 9 ∧
      (blockIndex i j).1 / 3 = i / 3 ∧ (blockIndex i j).2 / 3 = i % 3) ∧
    (∀ r < 9, ∀ c < 9, r / 3 = i / 3 → c / 3 = i % 3 →
      ∃! j : Nat, j < 9 ∧ blockIndex i j = (r, c)) ∧
    (∀ a < 3, ∀ b < 3, ∃! k : Nat, k < 9 ∧ k / 3 = a ∧ k % 3 = b) ∧
    (∀ (H : Grid) (is : List Nat) (s : Int),
      outerLoop H (i :: is) s =
        (innerLoop H i (List.range WIDTH) ⟨s, zeros, zeros, zeros⟩).bind
          fun st => outerLoop H is st.status) ∧
    (∀ (H : Grid) (j : Nat) (st : Seen) (v : Int), readCell H i j = some v →
      body H i j st =
        (check st.checkedRow (readCell H i j)).bind fun row =>
        (check st.checkedCol (readCell H j i)).bind fun col =>
        (check st.checkedBlock
            (readCell H (blockIndex i j).1 (blockIndex i j).2)).bind fun block =>
        .next ⟨if v = 0 then SOLVABLE else st.status, row, col, block⟩) ∧
    (innerLoop G i (List.range WIDTH) ⟨status, zeros, zeros, zeros⟩ = .ret INVALID ↔
      RowDupAt G i ∨ ColDupAt G i ∨ BlockDupAt G i) ∧
    (¬(RowDupAt G i ∨ ColDupAt G i ∨ BlockDupAt G i) →
      ∃ st', innerLoop G i (List.range WIDTH) ⟨status, zeros, zeros, zeros⟩ = .next st' ∧
        (((∃ j < 9, cellAt G i j = 0) ∧ st'.status = SOLVABLE) ∨
          ((∀ j < 9, cellAt G i j ≠ 0) ∧ st'.status = status)) ∧
        Marks st'.checkedRow (fun d => ∃ j < 9, cellAt G i j = d) ∧
        Marks st'.checkedCol (fun d => ∃ j < 9, cellAt G j i = d) ∧
        Marks st'.checkedBlock
          (fun d => ∃ r < 9, ∃ c < 9, r / 3 = i / 3 ∧ c / 3 = i % 3 ∧ cellAt G r c = d)) ∧
    (validGrid G = some INVALID ↔
      ∃ k < 9, RowDupAt G k ∨ ColDupAt G k ∨ BlockDupAt G k) := by
  refine ⟨?_, ?_, ?_, fun _ _ _ => rfl, ?_, ?_, ?_, ?_⟩
  · intro j hj
    simp only [blockIndex]
    omega
  · intro r hr c hc hbr hbc
    refine ⟨r % 3 * 3 + c % 3, ⟨by omega, ?_⟩, ?_⟩
    · simp only [blockIndex, Prod.mk.injEq]
      omega
    · rintro j ⟨hj, he⟩
      simp only [blockIndex, Prod.mk.injEq] at he
      omega
  · intro a ha b hb
    refine ⟨a * 3 + b, ⟨by omega, by omega, by omega⟩, ?_⟩
    rintro k ⟨hk, h1, h2⟩
    omega
  · intro H j st v hv
    rw [body_reads_blockIndex, hv]
  · rcases innerLoop_fresh hG hi status with ⟨hd, q⟩ | ⟨hnd, st', q, _⟩
    · exact ⟨fun _ => (dupAt_iff hi).1 hd, fun _ => q⟩
    · constructor
      · intro h
        rw [q] at h
        exact absurd h (by simp)
      · intro h
        exact absurd ((dupAt_iff hi).2 h) hnd
  · intro hno
    rcases innerLoop_fresh hG hi status with ⟨hd, _⟩ | ⟨_, st', q, hs, k1, k2, k3⟩
    · exact absurd ((dupAt_iff hi).1 hd) hno
    · exact ⟨st', q, hs, k1, k2, k3⟩
  · constructor
    · intro h
      obtain ⟨k, hk, hd⟩ := (hasDup_iff_dupAt G).1 (hasDup_of_invalid hG h)
      exact ⟨k, hk, (dupAt_iff hk).1 hd⟩
    · rintro ⟨k, hk, hd⟩
      exact validGrid_invalid_of_hasDup hG ((hasDup_iff_dupAt G).2 ⟨k, hk, (dupAt_iff hk).2 hd⟩)

/-- C15 at the outer index `4` and a grid whose only repeated digit lies in the
middle block, in two different rows and columns. -/
theorem block_check_covers_block_witness :
    4 < 9 ∧ WellFormed midClash ∧ ¬RowDupAt midClash 4 ∧ ¬ColDupAt midClash 4 ∧
      BlockDupAt midClash 4 ∧
      innerLoop midClash 4 (List.range WIDTH) ⟨SOLVED, zeros, zeros, zeros⟩ = .ret INVALID :=
  ⟨by decide, by decide, by decide, by decide, by decide,
    (block_check_covers_block 4 (by decide) midClash (by decide) SOLVED).2.2.2.2.2.1.2
      (Or.inr (Or.inr (by decide)))⟩

/-- C16: on a well-formed grid with an empty cell, a grid returned by `solve` is
the least Solved completion of the input in the lexicographic order of the 81
cells read in row-major order. -/
theorem solve_least (G : Grid) (hG : WellFormed G) (hE : HasEmpty G) (S : Grid)
    (h : solve G = some (some S)) :
    Completion G S ∧ ∀ T, Completion G T → LexLE S T := by
  constructor
  · rcases solve_returns hG h with ⟨_, hc⟩ | ⟨hne, _⟩
    · exact hc
    · exact absurd hE hne
  · have hcount : emptyCount G < WIDTH * WIDTH + 1 := by
      have := emptyCount_le G
      simp only [WIDTH]
      omega
    exact solveFuel_least _ G hG hcount S h hE

/-- C16 at a grid with two empty cells. -/
theorem solve_least_witness :
    WellFormed twoHoles ∧ HasEmpty twoHoles ∧ solve twoHoles = some (some solvedGrid) ∧
      Completion twoHoles solvedGrid ∧ ∀ T, Completion twoHoles T → LexLE solvedGrid T :=
  have hs : solve twoHoles = some (some solvedGrid) := by decide
  ⟨by decide, by decide, hs, solve_least twoHoles (by decide) (by decide) solvedGrid hs⟩

/-- C17: a grid returned by `solve` on a well-formed grid with an empty cell has
no empty cell and is classified `SOLVED`; and whenever `solve` returns a grid
that is not classified `SOLVED`, the input had no empty cell and was classified
`INVALID`. -/
theorem solve_result_solved (G : Grid) (hG : WellFormed G) (S : Grid)
    (h : solve G = some (some S)) :
    (HasEmpty G → ¬HasEmpty S ∧ validGrid S = some SOLVED) ∧
    (validGrid S ≠ some SOLVED → ¬HasEmpty G ∧ validGrid G = some INVALID) := by
  rcases solve_returns hG h with ⟨hE, hc⟩ | ⟨hne, rfl⟩
  · exact ⟨fun _ => ⟨hc.2.1, hc.2.2.1⟩, fun hns => absurd hc.2.2.1 hns⟩
  · refine ⟨fun hE => absurd hE hne, fun hns => ⟨hne, ?_⟩⟩
    rcases validGrid_spec hG with ⟨_, q⟩ | ⟨_, he, _⟩ | ⟨_, _, q⟩
    · exact q
    · exact absurd he hne
    · exact absurd q hns

/-- C17 at a grid with two empty cells. -/
theorem solve_result_solved_witness :
    WellFormed twoHoles ∧ solve twoHoles = some (some solvedGrid) ∧ HasEmpty twoHoles ∧
      ¬HasEmpty solvedGrid ∧ validGrid solvedGrid = some SOLVED :=
  ⟨by decide, by decide, by decide,
    (solve_result_solved twoHoles (by decide) solvedGrid (by decide)).1 (by decide)⟩

/-- C18: `solve` terminates on every well-formed grid.  A budget of one level
more than the number of empty cells, which is at most 81, gives the result of
`solve`.  The cell found by the scan is the first empty cell in row-major
order; the candidate loop calls `solve` only on grids obtained from the
argument by writing a digit of `1 .. 9` into that cell; each such grid is
well-formed, equals the argument on every other cell and has one empty cell
less. -/
theorem solve_terminates (G : Grid) (hG : WellFormed G) :
    emptyCount G ≤ 81 ∧
    (∃ res, solveFuel (emptyCount G + 1) G = some res ∧ solve G = some res) ∧
    (∀ r c, findEmpty G = some (some (r, c)) →
      (r < 9 ∧ c < 9 ∧ cellAt G r c = 0 ∧
        ∀ i < 9, ∀ j < 9, (i < r ∨ (i = r ∧ j < c)) → cellAt G i j ≠ 0) ∧
      (∀ self1 self2 : Grid → Option (Option Grid),
        (∀ (d : Int) (W : Grid), 1 ≤ d → d ≤ 9 → writeCell G r c d = some W →
          self1 W = self2 W) →
        tryDigits self1 r c candidates G = tryDigits self2 r c candidates G) ∧
      (∀ (d : Int) (W : Grid), 1 ≤ d → d ≤ 9 → writeCell G r c d = some W →
        WellFormed W ∧ emptyCount W + 1 = emptyCount G ∧
          ∀ i j, cellAt W i j = if i = r ∧ j = c then d else cellAt G i j)) := by
  refine ⟨emptyCount_le G, ?_, ?_⟩
  · obtain ⟨res, hq, _⟩ := solveFuel_spec (emptyCount G + 1) G hG (Nat.lt_succ_self _)
    refine ⟨res, hq, ?_⟩
    have hle : emptyCount G + 1 ≤ WIDTH * WIDTH + 1 := by
      have := emptyCount_le G
      simp only [WIDTH]
      omega
    exact solveFuel_mono_le hle hq
  · intro r c hf
    obtain ⟨hr, hc, hz, hfirst⟩ := findEmpty_first hG hf
    refine ⟨⟨hr, hc, hz, hfirst⟩, ?_, ?_⟩
    · intro self1 self2 hself
      exact tryDigits_congr hG hr hc hself candidates (fun d hd => mem_candidates.1 hd) G hG
        (fun _ _ _ => rfl)
    · intro d W h1 h9 hw
      obtain ⟨W2, hw2, hwf, hcell⟩ := writeCell_spec hG hr hc d
      rw [hw2] at hw
      cases hw
      exact ⟨hwf (by omega) h9, emptyCount_succ hr hc hz (by omega) hcell, hcell⟩

/-- C18 at the standard "easy" puzzle. -/
theorem solve_terminates_witness :
    WellFormed easyGrid ∧ emptyCount easyGrid ≤ 81 ∧
      ∃ res, solveFuel (emptyCount easyGrid + 1) easyGrid = some res ∧
        solve easyGrid = some res :=
  ⟨by decide, (solve_terminates easyGrid (by decide)).1,
    (solve_terminates easyGrid (by decide)).2.1⟩

/-- C19: `validGrid` is monotone under filling: if a well-formed grid `G` is
classified `INVALID`, so is every well-formed grid that keeps the filled cells
of `G`; hence `G` has no Solved completion. -/
theorem validGrid_invalid_mono (G G' : Grid) (hG : WellFormed G) (hG' : WellFormed G')
    (ha : Agrees G G') (hI : validGrid G = some INVALID) :
    validGrid G' = some INVALID ∧ ∀ T, ¬Completion G T :=
  ⟨validGrid_invalid_of_hasDup hG' (hasDup_of_agrees ha (hasDup_of_invalid hG hI)),
    fun _ => no_completion_of_hasDup (hasDup_of_invalid hG hI)⟩

/-- C19 at the grid with two 5s in row 0 and a filling of it. -/
theorem validGrid_invalid_mono_witness :
    WellFormed twoFives ∧ WellFormed fiveFiveOne ∧ Agrees twoFives fiveFiveOne ∧
      validGrid twoFives = some INVALID ∧ validGrid fiveFiveOne = some INVALID :=
  ⟨by decide, by decide, by decide, by decide,
    (validGrid_invalid_mono twoFives fiveFiveOne (by decide) (by decide) (by decide)
      (by decide)).1⟩

/-! ## The heap model refines the functional model -/

theorem load_lt {m : Mem} {p : Nat} {G : Grid} (h : m.load p = some G) :
    p < m.heap.length ∧ m.heap[p]? = some (some G) := by
  unfold Mem.load at h
  cases hp : m.heap[p]? with
  | none => rw [hp] at h; exact absurd h (by simp)
  | some o =>
    rw [hp] at h
    cases o with
    | none => exact absurd h (by simp)
    | some g =>
      simp only [Option.some.injEq] at h
      subst h
      refine ⟨?_, rfl⟩
      by_contra hlt
      rw [List.getElem?_eq_none (by omega)] at hp
      exact absurd hp (by simp)

theorem load_of_getElem {m : Mem} {p : Nat} {G : Grid} (h : m.heap[p]? = some (some G)) :
    m.load p = some G := by
  simp [Mem.load, h]

theorem load_congr {m m' : Mem} {p : Nat} (h : m'.heap[p]? = m.heap[p]?) :
    m'.load p = m.load p := by
  simp [Mem.load, h]

theorem writeCellM_spec {m : Mem} {p r c : Nat} {d : Int} {W W' : Grid}
    (hload : m.load p = some W) (hw : writeCell W r c d = some W') :
    ∃ m1, writeCellM p r c d m = some m1 ∧ m1.load p = some W' ∧
      m1.heap.length = m.heap.length ∧ ∀ q, q ≠ p → m1.heap[q]? = m.heap[q]? := by
  obtain ⟨hp, _⟩ := load_lt hload
  refine ⟨{ m with heap := m.heap.set p (some W') }, by simp [writeCellM, hload, hw], ?_,
    by simp, ?_⟩
  · apply load_of_getElem
    simp [List.getElem?_set, hp]
  · intro q hq
    simp [List.getElem?_set, Ne.symm hq]

theorem freeGridM_spec {m : Mem} {p : Nat} {W : Grid} (hload : m.load p = some W) :
    ∃ m1, freeGridM p m = some m1 ∧ m1.heap.length = m.heap.length ∧
      ∀ q, q ≠ p → m1.heap[q]? = m.heap[q]? := by
  refine ⟨{ m with heap := m.heap.set p none }, by simp [freeGridM, hload], by simp, ?_⟩
  intro q hq
  simp [List.getElem?_set, Ne.symm hq]

theorem copyGridM_spec {m : Mem} {p : Nat} {G copied : Grid} (k : Int) (l : List Int)
    (hload : m.load p = some G) (hc : copyGrid G = some copied) :
    ∃ m1, copyGridM p { m with iter := k, log := l } = some (m.heap.length, m1) ∧
      m1.load m.heap.length = some copied ∧ m1.heap.length = m.heap.length + 1 ∧
      ∀ q < m.heap.length, m1.heap[q]? = m.heap[q]? := by
  have hload0 : Mem.load { m with iter := k, log := l } p = some G := hload
  refine ⟨{ heap := m.heap ++ [some copied], iter := k, log := l },
    by simp [copyGridM, hload0, hc], ?_, by simp, ?_⟩
  · apply load_of_getElem
    show (m.heap ++ [some copied])[m.heap.length]? = some (some copied)
    simp
  · intro q hq
    exact List.getElem?_append_left hq

theorem tryDigitsM_sim {n : Nat}
    (ih : ∀ (p : Nat) (m : Mem) (G : Grid) (res : Option Grid), m.load p = some G →
      solveFuel n G = some res →
      ∃ r m', solveMFuel n p m = some (r, m') ∧ m.heap.length ≤ m'.heap.length ∧
        (∀ q < m.heap.length, m'.heap[q]? = m.heap[q]?) ∧ Matches m.heap.length m' r res)
    (r c : Nat) :
    ∀ (ds : List Int) (nI : Nat) (m : Mem) (W : Grid) (res : Option Grid),
      m.load nI = some W → tryDigits (solveFuel n) r c ds W = some res →
      ∃ r' m', tryDigitsM (solveMFuel n) r c ds nI m = some (r', m') ∧
        m.heap.length ≤ m'.heap.length ∧
        (∀ q < m.heap.length, q ≠ nI → m'.heap[q]? = m.heap[q]?) ∧ Matches nI m' r' res := by
  intro ds
  induction ds with
  | nil =>
    intro nI m W res _ h
    simp only [tryDigits, Option.some.injEq] at h
    subst h
    exact ⟨none, m, rfl, le_refl _, fun _ _ _ => rfl, trivial⟩
  | cons d ds ihd =>
    intro nI m W res hload h
    obtain ⟨hnI, _⟩ := load_lt hload
    simp only [tryDigits] at h
    cases hw : writeCell W r c d with
    | none => rw [hw] at h; exact absurd h (by simp)
    | some W' =>
      rw [hw] at h
      simp only at h
      obtain ⟨m1, hwm, hload1, hlen1, hframe1⟩ := writeCellM_spec hload hw
      cases hv : validGrid W' with
      | none => rw [hv] at h; exact absurd h (by simp)
      | some status =>
        rw [hv] at h
        simp only at h
        have hvm : validGridM nI m1 = some status := by
          simp [validGridM, hload1, hv]
        simp only [tryDigitsM, hwm, hvm]
        by_cases h1 : status = SOLVED
        · simp only [h1, if_true, Option.some.injEq] at h ⊢
          subst h
          exact ⟨some nI, m1, rfl, by omega, fun q _ hq => hframe1 q hq, le_refl _, hload1⟩
        · by_cases h2 : status = SOLVABLE
          · subst h2
            have e : ¬ SOLVABLE = SOLVED := by decide
            simp only [e, if_false, if_true] at h ⊢
            cases hs : solveFuel n W' with
            | none => rw [hs] at h; exact absurd h (by simp)
            | some lf =>
              rw [hs] at h
              obtain ⟨r2, m2, hq, hlen2, hframe2, hmatch⟩ := ih nI m1 W' lf hload1 hs
              have hload2 : m2.load nI = some W' := by
                rw [load_congr (hframe2 nI (by omega))]; exact hload1
              rw [hq]
              cases lf with
              | some leaf =>
                simp only [Option.some.injEq] at h
                subst h
                cases r2 with
                | none => exact absurd hmatch (by simp [Matches])
                | some q =>
                  obtain ⟨hqb, hql⟩ := hmatch
                  obtain ⟨m3, hfree, hlen3, hframe3⟩ := freeGridM_spec hload2
                  simp only [hfree]
                  refine ⟨some q, m3, rfl, by omega, ?_, by omega, ?_⟩
                  · intro q' hq' hne
                    rw [hframe3 q' hne, hframe2 q' (by omega)]
                    exact hframe1 q' hne
                  · rw [← hql]
                    exact load_congr (hframe3 q (by omega))
              | none =>
                cases r2 with
                | some q => exact absurd hmatch (by simp [Matches])
                | none =>
                  simp only at h ⊢
                  obtain ⟨r3, m3, hq3, hlen3, hframe3, hmatch3⟩ := ihd nI m2 W' res hload2 h
                  refine ⟨r3, m3, hq3, by omega, ?_, hmatch3⟩
                  intro q' hq' hne
                  rw [hframe3 q' (by omega) hne, hframe2 q' (by omega)]
                  exact hframe1 q' hne
          · simp only [h1, h2, if_false] at h ⊢
            obtain ⟨r3, m3, hq3, hlen3, hframe3, hmatch3⟩ := ihd nI m1 W' res hload1 h
            refine ⟨r3, m3, hq3, by omega, ?_, hmatch3⟩
            intro q' hq' hne
            rw [hframe3 q' (by omega) hne]
            exact hframe1 q' hne

/-- The heap model computes the result of the functional model, leaves every
grid that was on the heap before the call as it was, and returns a grid at a
fresh address. -/
theorem solveMFuel_sim : ∀ (n : Nat) (p : Nat) (m : Mem) (G : Grid) (res : Option Grid),
    m.load p = some G → solveFuel n G = some res →
    ∃ r m', solveMFuel n p m = some (r, m') ∧ m.heap.length ≤ m'.heap.length ∧
      (∀ q < m.heap.length, m'.heap[q]? = m.heap[q]?) ∧ Matches m.heap.length m' r res := by
  intro n
  induction n with
  | zero => intro p m G res _ h; exact absurd h (by simp [solveFuel])
  | succ n ih =>
    intro p m G res hload h
    obtain ⟨hp, hget⟩ := load_lt hload
    rw [solveFuel] at h
    cases hc : copyGrid G with
    | none => rw [hc] at h; exact absurd h (by simp)
    | some copied =>
      rw [hc] at h
      simp only at h
      obtain ⟨m1, hcm, hloadn, hlen1, hframe1⟩ :=
        copyGridM_spec (nextCount m.iter) (m.log ++ [m.iter]) hload hc
      have hload1 : m1.load p = some G := by
        rw [load_congr (hframe1 p hp)]; exact hload
      simp only [solveMFuel, hcm, findEmptyM, hload1]
      cases hf : findEmpty G with
      | none => rw [hf] at h; exact absurd h (by simp)
      | some fo =>
        rw [hf] at h
        cases fo with
        | none =>
          simp only [Option.some.injEq] at h
          subst h
          exact ⟨some m.heap.length, m1, rfl, by omega, hframe1, le_refl _, hloadn⟩
        | some rc =>
          obtain ⟨r, c⟩ := rc
          simp only at h ⊢
          obtain ⟨r', m', hq, hlen, hframe, hmatch⟩ :=
            tryDigitsM_sim ih r c candidates m.heap.length m1 copied res hloadn h
          refine ⟨r', m', hq, by omega, ?_, hmatch⟩
          intro q hq2
          rw [hframe q (by omega) (by omega)]
          exact hframe1 q hq2

/-! ## The counter does not reach the heap -/

theorem load_heap {m m' : Mem} (h : m.heap = m'.heap) (p : Nat) : m.load p = m'.load p := by
  simp [Mem.load, h]

theorem writeCellM_heap {m m' : Mem} (h : m.heap = m'.heap) (p r c : Nat) (d : Int) :
    (writeCellM p r c d m = none ∧ writeCellM p r c d m' = none) ∨
    ∃ m1 m1', writeCellM p r c d m = some m1 ∧ writeCellM p r c d m' = some m1' ∧
      m1.heap = m1'.heap := by
  have hl' := load_heap h p
  cases hl : m.load p with
  | none =>
    rw [hl] at hl'
    exact Or.inl ⟨by simp [writeCellM, hl], by simp [writeCellM, ← hl']⟩
  | some g =>
    rw [hl] at hl'
    cases hw : writeCell g r c d with
    | none => exact Or.inl ⟨by simp [writeCellM, hl, hw], by simp [writeCellM, ← hl', hw]⟩
    | some g' =>
      exact Or.inr ⟨{ m with heap := m.heap.set p (some g') },
        { m' with heap := m'.heap.set p (some g') }, by simp [writeCellM, hl, hw],
        by simp [writeCellM, ← hl', hw], by simp [h]⟩

theorem freeGridM_heap {m m' : Mem} (h : m.heap = m'.heap) (p : Nat) :
    (freeGridM p m = none ∧ freeGridM p m' = none) ∨
    ∃ m1 m1', freeGridM p m = some m1 ∧ freeGridM p m' = some m1' ∧ m1.heap = m1'.heap := by
  have hl' := load_heap h p
  cases hl : m.load p with
  | none =>
    rw [hl] at hl'
    exact Or.inl ⟨by simp [freeGridM, hl], by simp [freeGridM, ← hl']⟩
  | some g =>
    rw [hl] at hl'
    exact Or.inr ⟨{ m with heap := m.heap.set p none }, { m' with heap := m'.heap.set p none },
      by simp [freeGridM, hl], by simp [freeGridM, ← hl'], by simp [h]⟩

theorem copyGridM_heap {m m' : Mem} (h : m.heap = m'.heap) (p : Nat) :
    (copyGridM p m = none ∧ copyGridM p m' = none) ∨
    ∃ q m1 m1', copyGridM p m = some (q, m1) ∧ copyGridM p m' = some (q, m1') ∧
      m1.heap = m1'.heap := by
  have hl' := load_heap h p
  cases hl : m.load p with
  | none =>
    rw [hl] at hl'
    exact Or.inl ⟨by simp [copyGridM, hl], by simp [copyGridM, ← hl']⟩
  | some g =>
    rw [hl] at hl'
    cases hc : copyGrid g with
    | none => exact Or.inl ⟨by simp [copyGridM, hl, hc], by simp [copyGridM, ← hl', hc]⟩
    | some copied =>
      exact Or.inr ⟨m.heap.length, { m with heap := m.heap ++ [some copied] },
        { m' with heap := m'.heap ++ [some copied] }, by simp [copyGridM, hl, hc],
        by simp [copyGridM, ← hl', hc, h], by simp [h]⟩

theorem validGridM_heap {m m' : Mem} (h : m.heap = m'.heap) (p : Nat) :
    validGridM p m = validGridM p m' := by
  simp [validGridM, load_heap h p]

theorem findEmptyM_heap {m m' : Mem} (h : m.heap = m'.heap) (p : Nat) :
    findEmptyM p m = findEmptyM p m' := by
  simp [findEmptyM, load_heap h p]

theorem tryDigitsM_heap {self : Nat → Mem → Option (Option Nat × Mem)}
    (hself : ∀ (p : Nat) (m m' : Mem), m.heap = m'.heap → SameHeap (self p m) (self p m'))
    (r c : Nat) :
    ∀ (ds : List Int) (nI : Nat) (m m' : Mem), m.heap = m'.heap →
      SameHeap (tryDigitsM self r c ds nI m) (tryDigitsM self r c ds nI m') := by
  intro ds
  induction ds with
  | nil => intro nI m m' h; exact ⟨rfl, h⟩
  | cons d ds ihd =>
    intro nI m m' h
    simp only [tryDigitsM]
    rcases writeCellM_heap h nI r c d with ⟨e1, e2⟩ | ⟨m1, m1', e1, e2, h1⟩
    · rw [e1, e2]; trivial
    · rw [e1, e2]
      simp only
      rw [← validGridM_heap h1 nI]
      cases validGridM nI m1 with
      | none => trivial
      | some status =>
        simp only
        by_cases hs1 : status = SOLVED
        · simp only [hs1, if_true]
          exact ⟨rfl, h1⟩
        · by_cases hs2 : status = SOLVABLE
          · subst hs2
            have e : ¬ SOLVABLE = SOLVED := by decide
            simp only [e, if_false, if_true]
            have hrec := hself nI m1 m1' h1
            cases hx : self nI m1 with
            | none =>
              cases hy : self nI m1' with
              | none => trivial
              | some y => rw [hx, hy] at hrec; exact absurd hrec (by simp [SameHeap])
            | some x =>
              cases hy : self nI m1' with
              | none => rw [hx, hy] at hrec; exact absurd hrec (by simp [SameHeap])
              | some y =>
                rw [hx, hy] at hrec
                obtain ⟨rx, mx⟩ := x
                obtain ⟨ry, my⟩ := y
                obtain ⟨hr, hm⟩ := hrec
                simp only at hr hm
                subst hr
                cases rx with
                | none => exact ihd nI mx my hm
                | some leaf =>
                  simp only
                  rcases freeGridM_heap hm nI with ⟨f1, f2⟩ | ⟨m3, m3', f1, f2, h3⟩
                  · rw [f1, f2]; trivial
                  · rw [f1, f2]; exact ⟨rfl, h3⟩
          · simp only [hs1, hs2, if_false]
            exact ihd nI m1 m1' h1

/-- The pointer returned by `solve` and the heap it leaves depend on the heap
before the call only, not on the counter or on the log. -/
theorem solveMFuel_heap : ∀ (n : Nat) (p : Nat) (m m' : Mem), m.heap = m'.heap →
    SameHeap (solveMFuel n p m) (solveMFuel n p m') := by
  intro n
  induction n with
  | zero => intro p m m' _; trivial
  | succ n ih =>
    intro p m m' h
    simp only [solveMFuel]
    have h0 : Mem.heap { m with iter := nextCount m.iter, log := m.log ++ [m.iter] } =
        Mem.heap { m' with iter := nextCount m'.iter, log := m'.log ++ [m'.iter] } := h
    rcases copyGridM_heap h0 p with ⟨e1, e2⟩ | ⟨q, m1, m1', e1, e2, h1⟩
    · rw [e1, e2]; trivial
    · rw [e1, e2]
      simp only
      rw [← findEmptyM_heap h1 p]
      cases findEmptyM p m1 with
      | none => trivial
      | some fo =>
        cases fo with
        | none => exact ⟨rfl, h1⟩
        | some rc =>
          obtain ⟨r, c⟩ := rc
          exact tryDigitsM_heap ih r c candidates q m1 m1' h1

theorem matches_heap {m m' : Mem} (h : m.heap = m'.heap) {b : Nat} {r : Option Nat}
    {res : Option Grid} (hm : Matches b m r res) : Matches b m' r res := by
  cases r with
  | none =>
    cases res with
    | none => trivial
    | some S => exact absurd hm (by simp [Matches])
  | some q =>
    cases res with
    | none => exact absurd hm (by simp [Matches])
    | some S => exact ⟨hm.1, by rw [← load_heap h q]; exact hm.2⟩

/-! # The claims about the program state -/

/-- C12: with the heap as explicit state, a call of `solve` on a pointer to a
well-formed grid returns, with the result of the functional `solve`, and leaves
the caller's grid and every other grid that was on the heap before the call
cell for cell as it was: all writes go to grids allocated by `copyGrid` during
the call, and a returned grid lies at such a fresh address. -/
theorem solveM_keeps_caller_grid (G : Grid) (hG : WellFormed G) (m : Mem) (p : Nat)
    (hp : m.load p = some G) :
    ∃ res r m', solve G = some res ∧ solveM p m = some (r, m') ∧ m'.load p = some G ∧
      (∀ q < m.heap.length, m'.heap[q]? = m.heap[q]?) ∧ Matches m.heap.length m' r res := by
  obtain ⟨res, hq, _⟩ := solve_spec hG
  obtain ⟨r, m', hqm, _, hframe, hmatch⟩ := solveMFuel_sim _ p m G res hp hq
  refine ⟨res, r, m', hq, hqm, ?_, hframe, hmatch⟩
  rw [load_congr (hframe p (load_lt hp).1)]
  exact hp

/-- C12 at a heap that holds one grid with one empty cell. -/
theorem solveM_keeps_caller_grid_witness :
    WellFormed oneHole ∧ Mem.load ⟨[some oneHole], 0, []⟩ 0 = some oneHole ∧
      ∃ res r m', solve oneHole = some res ∧
        solveM 0 ⟨[some oneHole], 0, []⟩ = some (r, m') ∧ m'.load 0 = some oneHole ∧
        (∀ q < 1, m'.heap[q]? = [some oneHole][q]?) ∧ Matches 1 m' r res :=
  ⟨by decide, rfl, solveM_keeps_caller_grid oneHole (by decide) ⟨[some oneHole], 0, []⟩ 0 rfl⟩

/-- C13: with the static counter as explicit state, two calls of `solve` on the
same well-formed grid that start from two values of `iter` both return, with
the same pointer and the same heap: both return `NULL`, or both return the same
grid, the result of the functional `solve`.  The counter reaches the log
only. -/
theorem solveM_counter_independent (G : Grid) (hG : WellFormed G) (m : Mem) (p : Nat)
    (hp : m.load p = some G) (k1 k2 : Int) :
    ∃ res r m1 m2, solve G = some res ∧
      solveM p ⟨m.heap, k1, m.log⟩ = some (r, m1) ∧
      solveM p ⟨m.heap, k2, m.log⟩ = some (r, m2) ∧
      m1.heap = m2.heap ∧ Matches m.heap.length m1 r res ∧ Matches m.heap.length m2 r res := by
  obtain ⟨res, hq, _⟩ := solve_spec hG
  have hp1 : Mem.load ⟨m.heap, k1, m.log⟩ p = some G := hp
  obtain ⟨r, m1, hq1, _, _, hmatch1⟩ := solveMFuel_sim _ p _ G res hp1 hq
  have hsame := solveMFuel_heap (WIDTH * WIDTH + 1) p ⟨m.heap, k1, m.log⟩ ⟨m.heap, k2, m.log⟩ rfl
  have hq1' : solveM p ⟨m.heap, k1, m.log⟩ = some (r, m1) := hq1
  unfold solveM at hq1' ⊢
  rw [hq1'] at hsame
  cases hq2 : solveMFuel (WIDTH * WIDTH + 1) p ⟨m.heap, k2, m.log⟩ with
  | none => rw [hq2] at hsame; exact absurd hsame (by simp [SameHeap])
  | some y =>
    rw [hq2] at hsame
    obtain ⟨r2, m2⟩ := y
    obtain ⟨hr, hm⟩ := hsame
    simp only at hr hm
    subst hr
    exact ⟨res, r, m1, m2, hq, hq1', rfl, hm, hmatch1, matches_heap hm hmatch1⟩

/-- C13 at a heap that holds one grid, with the counter at 0 and at 41. -/
theorem solveM_counter_independent_witness :
    WellFormed twoFives ∧ Mem.load ⟨[some twoFives], 0, []⟩ 0 = some twoFives ∧
      ∃ res r m1 m2, solve twoFives = some res ∧
        solveM 0 ⟨[some twoFives], 0, []⟩ = some (r, m1) ∧
        solveM 0 ⟨[some twoFives], 41, []⟩ = some (r, m2) ∧
        m1.heap = m2.heap ∧ Matches 1 m1 r res ∧ Matches 1 m2 r res :=
  ⟨by decide, rfl,
    solveM_counter_independent twoFives (by decide) ⟨[some twoFives], 0, []⟩ 0 rfl 0 41⟩

end Sudoku
